import Mathlib

/-!
Verification of the benchmark-results ingestion core of ReBenchDB
(src/src/db.ts) against its natural-language specification.

The development is a shallow embedding: the TypeScript functions of
`src/src/db.ts` are translated into executable Lean definitions.  SQL
statements executed through the connection pool are modelled by pure
operations on explicit table states (lists of rows); the sequential,
error-free semantics is used where a claim is about data (idempotence,
deduplication), and an explicit error-injecting oracle is used where a
claim is about error handling (`recordCached`, `recordMeasurements`
fallback paths).  JavaScript `Map`s and plain objects used as maps are
modelled by association lists where a later `set` shadows an earlier one.
-/

namespace ReBench

/-! ## Generic association-list helpers (JS `Map` / object-as-map model) -/

/-- Lookup in an association list with string keys; the entry added most
recently (consed at the front) wins, matching `Map.get` after `Map.set`. -/
def lookupA {α : Type} : List (String × α) → String → Option α
  | [], _ => none
  | (k', v) :: rest, k => if k' = k then some v else lookupA rest k

/-- Lookup in an association list with numeric keys (JS object property
access `o[k]` for integer-keyed objects). -/
def lookupN {α : Type} : List (Nat × α) → Nat → Option α
  | [], _ => none
  | (k', v) :: rest, k => if k' = k then some v else lookupN rest k

/-- Property assignment `o[k] = v` on an object modelled as an association
list: replace the binding in place if present, otherwise append it. -/
def setN {α : Type} : List (Nat × α) → Nat → α → List (Nat × α)
  | [], k, v => [(k, v)]
  | (k', v') :: rest, k, v =>
    if k' = k then (k, v) :: rest else (k', v') :: setN rest k v

/-- JavaScript `Array.prototype.join(sep)` on a list of strings. -/
def joinSep (sep : String) : List String → String
  | [] => ""
  | [x] => x
  | x :: y :: rest => x ++ sep ++ joinSep sep (y :: rest)

/-! ## Batch-insert placeholder generation (C10)

`Database.generateBatchInsert` (src/src/db.ts lines 293-303) builds the
`VALUES` placeholder groups of a variadic multi-row INSERT statement. -/

/-- `Database.generateBatchInsert(numTuples, sizeTuples)`: for each tuple
index `i` the inner loop pushes `i * sizeTuples + j` for `j = 1 ..
sizeTuples`, the group is rendered as `($a, $b, ...)`, and the groups are
joined with `,\n`. -/
def generateBatchInsert (numTuples sizeTuples : Nat) : String :=
  let nums := (List.range numTuples).map (fun i =>
    let tupleNums := (List.range sizeTuples).map (fun j => i * sizeTuples + (j + 1))
    "($" ++ joinSep ", $" (tupleNums.map toString) ++ ")")
  joinSep ",\n" nums

/-- Specification-side description of group `i` of the batch insert: the
placeholders `$(i*sizeTuples+1)` through `$((i+1)*sizeTuples)` in increasing
order, comma-separated and parenthesized. -/
def batchInsertGroupSpec (sizeTuples i : Nat) : String :=
  "(" ++ joinSep ", " ((List.range' (i * sizeTuples + 1) sizeTuples).map
    (fun k => "$" ++ toString k)) ++ ")"

/-- One-pass scanner state machine behind `extractPlaceholders`: `none` means
outside a placeholder, `some acc` means the digits read so far after a `$`
have value `acc`. -/
def epGo : List Char → Option Nat → List Nat
  | [], none => []
  | [], some acc => [acc]
  | c :: rest, none => if c = '$' then epGo rest (some 0) else epGo rest none
  | c :: rest, some acc =>
    if c.isDigit then epGo rest (some (10 * acc + (c.toNat - 48)))
    else acc :: (if c = '$' then epGo rest (some 0) else epGo rest none)

/-- Scanner recovering the numbers of the `$`-prefixed placeholders of a SQL
statement, in order of occurrence. -/
def extractPlaceholders (l : List Char) : List Nat :=
  epGo l none

/-! ## Commit-message filter (C7)

`filterCommitMessage` (src/src/db.ts lines 182-187) pipes the message
through `replaceAll('\\n', '\n')`, then `replace(/Signed-off-by:.*/g, '')`,
then `trim()`.  The JS regex `.` is modelled as any character other than a
real newline; `trim` as removal of leading/trailing whitespace. -/

/-- JS `msg.replaceAll('\\n', '\n')`: each literal two-character sequence
backslash-`n` becomes one real newline, scanning left to right without
overlap. -/
def replaceLitNl : List Char → List Char
  | '\\' :: 'n' :: rest => '\n' :: replaceLitNl rest
  | c :: rest => c :: replaceLitNl rest
  | [] => []

/-- The literal characters the regex `Signed-off-by:.*` must match first. -/
def sobMarker : List Char := "Signed-off-by:".data

/-- One pass of JS `replace(/Signed-off-by:.*/g, '')` as a two-state scanner.
In state `false` (copying): on an occurrence of the marker, switch to state
`true` (deleting the rest of the matched segment); otherwise copy the
character.  In state `true`: delete characters up to the next real newline,
which ends the match (the regex `.` does not cross a newline), then resume
copying there. -/
def stripGo : Bool → List Char → List Char
  | _, [] => []
  | false, c :: rest =>
    if sobMarker.isPrefixOf (c :: rest) then stripGo true rest
    else c :: stripGo false rest
  | true, c :: rest =>
    if c = '\n' then c :: stripGo false rest else stripGo true rest

/-- JS `replace(/Signed-off-by:.*/g, '')` over the whole message. -/
def stripSignedOff (l : List Char) : List Char :=
  stripGo false l

/-- Whitespace recognised by JS `String.prototype.trim` (the ASCII part). -/
def isJsWs (c : Char) : Bool :=
  c == ' ' || c == '\t' || c == '\n' || c == '\r' || c == '\x0b' || c == '\x0c'

/-- JS `trim()`: drop leading and trailing whitespace. -/
def trimChars (l : List Char) : List Char :=
  ((l.dropWhile isJsWs).reverse.dropWhile isJsWs).reverse

/-- `filterCommitMessage` from src/src/db.ts lines 182-187: resolve literal
newlines, then remove `Signed-off-by:` matches, then trim — in that order. -/
def filterCommitMessage (msg : String) : String :=
  ⟨trimChars (stripSignedOff (replaceLitNl msg.data))⟩

/-- The claim's reading of the filter, applying the three operations in the
order the claim lists them: strip `Signed-off-by:` matches first, then
resolve literal newlines, then trim. -/
def filterCommitMessageClaimOrder (msg : String) : String :=
  ⟨trimChars (replaceLitNl (stripSignedOff msg.data))⟩

/-- Split a character list into its lines at real newlines. -/
def splitNl : List Char → List (List Char)
  | [] => [[]]
  | c :: rest =>
    if c = '\n' then [] :: splitNl rest
    else
      match splitNl rest with
      | [] => [[c]]
      | s :: ss => (c :: s) :: ss

/-- Per-line form of the `Signed-off-by:` removal: within one line (no
newline inside), keep only the prefix before the first marker occurrence. -/
def stripLine : List Char → List Char
  | [] => []
  | c :: rest => if sobMarker.isPrefixOf (c :: rest) then [] else c :: stripLine rest

/-- Rejoin lines with real newlines. -/
def joinNl : List (List Char) → List Char
  | [] => []
  | [x] => x
  | x :: y :: rest => x ++ '\n' :: joinNl (y :: rest)

/-! ## Timed cache-validity token (C6)

`TimedCacheValidity` (src/src/db.ts lines 189-223).  The `setTimeout`
side effect is modelled by the ghost counter `timersStarted` (number of
one-shot timers created) together with the explicit event `timerFire`
(the timer callback, which sets `valid` to false). -/

structure TimedCacheValidity where
  valid : Bool
  scheduledInvalidation : Bool
  invalidationDelay : Nat
  timersStarted : Nat
deriving DecidableEq, Repr

/-- The constructor `new TimedCacheValidity(invalidationDelay)`. -/
def TimedCacheValidity.create (invalidationDelay : Nat) : TimedCacheValidity :=
  { valid := true
    scheduledInvalidation := false
    invalidationDelay := invalidationDelay
    timersStarted := 0 }

/-- `isValid()`. -/
def TimedCacheValidity.isValid (s : TimedCacheValidity) : Bool :=
  s.valid

/-- The first half of `invalidateAndNew()`: if no invalidation is scheduled
yet, schedule one — immediately (`valid = false`) when the delay is 0,
otherwise by starting a one-shot timer. -/
def TimedCacheValidity.scheduleStep (s : TimedCacheValidity) : TimedCacheValidity :=
  if ¬ s.scheduledInvalidation then
    if s.invalidationDelay = 0 then
      { s with scheduledInvalidation := true, valid := false }
    else
      { s with scheduledInvalidation := true, timersStarted := s.timersStarted + 1 }
  else s

/-- `invalidateAndNew()`: after the scheduling step, return `this` (encoded
`none`) while still valid, otherwise a freshly constructed token (encoded
`some token`).  The first component is the updated state of `this`. -/
def TimedCacheValidity.invalidateAndNew (s : TimedCacheValidity) :
    TimedCacheValidity × Option TimedCacheValidity :=
  let s1 := s.scheduleStep
  if s1.valid then (s1, none)
  else (s1, some (TimedCacheValidity.create s.invalidationDelay))

/-- The timer callback of the scheduled `setTimeout`: sets `valid := false`. -/
def TimedCacheValidity.timerFire (s : TimedCacheValidity) : TimedCacheValidity :=
  { s with valid := false }

/-- An event acting on one token: an `invalidateAndNew()` call (its effect on
`this`) or the firing of the one-shot timer. -/
inductive TCVEvent
  | invalidate
  | fire
deriving DecidableEq, Repr

/-- Effect of one event on the token's state. -/
def TCVEvent.apply : TCVEvent → TimedCacheValidity → TimedCacheValidity
  | .invalidate, s => s.invalidateAndNew.1
  | .fire, s => s.timerFire

/-- Effect of a sequence of events on the token's state. -/
def applyTCVEvents (s : TimedCacheValidity) (l : List TCVEvent) : TimedCacheValidity :=
  l.foldl (fun t e => e.apply t) s

/-! ## Database errors and `recordCached` (C2)

`isUniqueViolationError` (src/src/db.ts lines 29-31) and
`Database.recordCached` (lines 403-430).  The two fetches and the insert are
DB calls; the oracle parameters `fetch1`, `insertRes` and `fetch2` give the
row lists (or error) those calls produce in the run being considered. -/

/-- A database error as the driver reports it: carries a SQLSTATE code. -/
structure DbError where
  code : String
deriving DecidableEq, Repr

/-- `isUniqueViolationError(err)`: the error's code is `23505`. -/
def isUniqueViolationError (err : DbError) : Bool :=
  err.code == "23505"

/-- An error escaping `recordCached`: a propagated database error, or a
failure of the `assert(result.rowCount === 1)` check. -/
inductive RcError
  | db (e : DbError)
  | assertionFailure
deriving DecidableEq, Repr

/-- `Database.recordCached(cache, cacheKey, fetchQ, insertQ)` under the
oracle `fetch1` (rows of the first fetch), `insertRes` (rows or error of the
insert) and `fetch2` (rows of the re-fetch run inside the catch block).
Returns the row handed to the caller together with the updated cache, or
the escaping error.  Mirrors the source: a cache hit returns at once; an
empty first fetch triggers the insert; ANY insert error leads to a re-fetch,
and the original error is re-thrown only when the re-fetch is still empty;
`assert(result.rowCount === 1)` guards the final caching of `rows[0]`. -/
def recordCached {α : Type} (cache : List (String × α)) (cacheKey : String)
    (fetch1 : List α) (insertRes : Except DbError (List α)) (fetch2 : List α) :
    Except RcError (α × List (String × α)) :=
  match lookupA cache cacheKey with
  | some row => .ok (row, cache)
  | none =>
    let afterInsert : Except RcError (List α) :=
      if fetch1.length = 0 then
        match insertRes with
        | .ok rows => .ok rows
        | .error e => if fetch2.length = 0 then .error (.db e) else .ok fetch2
      else .ok fetch1
    match afterInsert with
    | .error e => .error e
    | .ok rows =>
      match rows with
      | [row] => .ok (row, (cacheKey, row) :: cache)
      | _ => .error .assertionFailure

/-! ## Timeline response conversion (C9)

`Database.convertToTimelineResponse` (src/src/db.ts lines 1554-1618). -/

/-- A row of the timeline query result as consumed by
`convertToTimelineResponse`.  Numeric values are modelled by integers: only
their identity matters to the conversion. -/
structure TimelineQueryRow where
  starttime : Int
  branch : String
  iscurrent : Bool
  sourceid : Nat
  median : Int
  bci95low : Int
  bci95up : Int
deriving DecidableEq, Repr

/-- The accumulating state of the row loop of `convertToTimelineResponse`:
the seven columns (the source allocates only four arrays when no base
branch name is supplied; here `c4`-`c6` then simply stay empty and unused),
the two highlighted timestamps and the source ids. -/
structure ConvState where
  c0 : List (Option Int)
  c1 : List (Option Int)
  c2 : List (Option Int)
  c3 : List (Option Int)
  c4 : List (Option Int)
  c5 : List (Option Int)
  c6 : List (Option Int)
  baseTs : Option Int
  changeTs : Option Int
  sourceIds : List Nat
deriving DecidableEq, Repr

/-- The state before the row loop: all columns empty, no timestamps. -/
def emptyConvState : ConvState :=
  ⟨[], [], [], [], [], [], [], none, none, []⟩

/-- Loop body of `convertToTimelineResponse` for one row (src/src/db.ts
lines 1580-1608): push the timestamp and source id; on the baseline branch
(or always, when no base branch name is given) push the three baseline
values and `null`-pad the change columns, otherwise the other way around;
record the timestamp of a row marked `isCurrent` on its branch's side. -/
def convertRowStep (baseBranchName : Option String) (st : ConvState)
    (row : TimelineQueryRow) : ConvState :=
  let st := { st with c0 := st.c0 ++ [some row.starttime],
                      sourceIds := st.sourceIds ++ [row.sourceid] }
  if baseBranchName = none ∨ some row.branch = baseBranchName then
    let st := if baseBranchName ≠ none ∧ row.iscurrent then
        { st with baseTs := some row.starttime }
      else st
    let st := { st with c1 := st.c1 ++ [some row.bci95low],
                        c2 := st.c2 ++ [some row.median],
                        c3 := st.c3 ++ [some row.bci95up] }
    if baseBranchName ≠ none then
      { st with c4 := st.c4 ++ [none], c5 := st.c5 ++ [none], c6 := st.c6 ++ [none] }
    else st
  else
    let st := if row.iscurrent then { st with changeTs := some row.starttime } else st
    let st := { st with c1 := st.c1 ++ [none], c2 := st.c2 ++ [none], c3 := st.c3 ++ [none] }
    if baseBranchName ≠ none then
      { st with c4 := st.c4 ++ [some row.bci95low], c5 := st.c5 ++ [some row.median],
                c6 := st.c6 ++ [some row.bci95up] }
    else st

/-- The record `convertToTimelineResponse` returns. -/
structure TimelineResponse where
  baseBranchName : Option String
  changeBranchName : Option String
  baseTimestamp : Option Int
  changeTimestamp : Option Int
  data : List (List (Option Int))
  sourceIds : List Nat
deriving DecidableEq, Repr

/-- `convertToTimelineResponse(rows, baseBranchName, changeBranchName)`:
fold the row loop over the rows from the empty state; `data` is the
7-column tuple when a base branch name is supplied and the 4-column tuple
otherwise. -/
def convertToTimelineResponse (rows : List TimelineQueryRow)
    (baseBranchName changeBranchName : Option String) : TimelineResponse :=
  let st := rows.foldl (convertRowStep baseBranchName) emptyConvState
  { baseBranchName := baseBranchName
    changeBranchName := changeBranchName
    baseTimestamp := st.baseTs
    changeTimestamp := st.changeTs
    data :=
      if baseBranchName ≠ none then [st.c0, st.c1, st.c2, st.c3, st.c4, st.c5, st.c6]
      else [st.c0, st.c1, st.c2, st.c3]
    sourceIds := st.sourceIds }

/-! ## Measurement recording (C3, C4, C5)

`Database.recordMeasurements` (src/src/db.ts lines 1114-1183),
`Database.recordMeasurementsFromBatch` (lines 1069-1088),
`Database.alreadyRecorded` (lines 1052-1067) and
`Database.retrieveAvailableMeasurements` (lines 1015-1050).

The loop is written once over an abstract behaviour of the three prepared
INSERT statements (`MeasIns`): the sequential error-free table semantics
instantiates it for the data-level claims, the error-injecting oracle for
the error-handling claims. -/

/-- Modelled from the spec: the distinguished criterion name driving
timeline aggregation (`TotalCriterion` of src/src/util.ts, which is not in
the repository snapshot; spec §6 calls it a spelled-out string constant
used literally in SQL). -/
def TotalCriterion : String := "total"

/-- A row of the Criterion table. -/
structure CriterionRow where
  id : Nat
  name : String
  unit : String
deriving DecidableEq, Repr

/-- A `{c: criterionIndex, v: value}` entry of the ingest payload.  The
floating-point value is modelled by an integer: ingestion only moves values
around. -/
structure ApiMeasure where
  c : Nat
  v : Int
deriving DecidableEq, Repr

/-- A `{in: invocation, it: iteration, m: [...]}` data point of the ingest
payload (`in` is a reserved word in Lean, hence the field name `inv`). -/
structure ApiDataPoint where
  inv : Nat
  it : Nat
  m : List ApiMeasure
deriving DecidableEq, Repr

/-- One measurement tuple, the 6 values pushed as
`[run.id, trial.id, d.in, d.it, criterion.id, m.v]`. -/
structure MeasurementRow where
  runid : Nat
  trialid : Nat
  invocation : Nat
  iteration : Nat
  criterion : Nat
  value : Int
deriving DecidableEq, Repr

/-- The nested available-measurements object built by
`retrieveAvailableMeasurements`: runId → criterionId → invocation →
max iteration. -/
abbrev AvailMap := List (Nat × List (Nat × List (Nat × Nat)))

/-- `Database.alreadyRecorded(measurements, [runId, _expId, inv, ite,
critId, _val])`: nested `in`-checks on the available-measurements object,
then `crit[inv] >= ite`. -/
def alreadyRecorded (measurements : AvailMap)
    (runId _trialId inv ite critId : Nat) (_val : Int) : Bool :=
  match lookupN measurements runId with
  | none => false
  | some run =>
    match lookupN run critId with
    | none => false
    | some crit =>
      match lookupN crit inv with
      | none => false
      | some maxIte => ite ≤ maxIte

/-- Specification-side reading of the available-measurements object: the
entry stored for (runId, criterionId, invocation), if any. -/
def lookup3 (m : AvailMap) (runId critId inv : Nat) : Option Nat :=
  (lookupN m runId).bind (fun run =>
    (lookupN run critId).bind (fun crit => lookupN crit inv))

/-- An error escaping the measurement-recording path: a database error, or
the JS `TypeError` raised by `(<Criterion>criteria.get(m.c)).id` when the
criterion index is absent from the criteria map. -/
inductive RmError
  | db (e : DbError)
  | typeError
deriving DecidableEq, Repr

/-- `isUniqueViolationError(err)` on whatever was thrown: a `TypeError` has
no SQLSTATE code, so only a database error with code 23505 qualifies. -/
def RmError.isUnique : RmError → Bool
  | .db e => isUniqueViolationError e
  | .typeError => false

/-- Abstract behaviour of the three prepared measurement INSERT statements.
A state `σ` threads through the calls — the measurement table under the
sequential semantics, the call counter under the error-injecting oracle —
and each call yields the reported rowCount or a database error, plus the
state after the call. -/
structure MeasIns (σ : Type) where
  one : σ → MeasurementRow → Except DbError Nat × σ
  batchedN : σ → List MeasurementRow → Except DbError Nat × σ
  batched10 : σ → List MeasurementRow → Except DbError Nat × σ

/-- `Database.recordMeasurementsFromBatch(batchedValues)`: insert the batch
one tuple at a time (`splice(6 * 1)` peels one 6-value tuple per round),
swallowing unique-violation errors and propagating any other error;
returns the summed rowCounts. -/
def recordMeasurementsFromBatch {σ : Type} (ins : MeasIns σ) :
    List MeasurementRow → σ → Except RmError (Nat × σ)
  | [], s => .ok (0, s)
  | row :: rest, s =>
    match ins.one s row with
    | (.ok n, s') =>
      (recordMeasurementsFromBatch ins rest s').map (fun p => (n + p.1, p.2))
    | (.error e, s') =>
      if isUniqueViolationError e then recordMeasurementsFromBatch ins rest s'
      else .error (.db e)

/-- `Database.batchN = 50`. -/
def batchN : Nat := 50

/-- The streaming loop's state: `recordedMeasurements`, the pending
`batchedValues` (as rows of 6 values; the source's `batchedMs` counter is
the row count of this list), the log of `updater.addValue` calls made so
far (ghost instrumentation of the `timelineUpdater` side effect), the ghost
log of every tuple ever appended to a batch, and the insert state. -/
structure MeasLoopState (σ : Type) where
  recorded : Nat
  batch : List MeasurementRow
  addCalls : List (Nat × Nat × Nat × Int)
  batchedLog : List MeasurementRow
  s : σ
deriving DecidableEq

/-- Loop body of `recordMeasurements` for one `{c, v}` entry (src/src/db.ts
lines 1125-1159): resolve the criterion, skip the tuple when
`alreadyRecorded`, otherwise notify the timeline updater for the total
criterion, append the tuple to the batch, and — when the batch holds
exactly `batchN` tuples — run the batched insert, falling back to the
tuple-at-a-time path on a unique violation and propagating any other
error. -/
def processMeasure {σ : Type} (ins : MeasIns σ) (timelineEnabled : Bool)
    (availableMs : AvailMap) (runId trialId : Nat)
    (criteria : List (Nat × CriterionRow)) (dinv dit : Nat) (m : ApiMeasure)
    (st : MeasLoopState σ) : Except RmError (MeasLoopState σ) :=
  match lookupN criteria m.c with
  | none => .error .typeError
  | some criterion =>
    if alreadyRecorded availableMs runId trialId dinv dit criterion.id m.v then .ok st
    else
      let addCalls :=
        if timelineEnabled ∧ criterion.name = TotalCriterion then
          st.addCalls ++ [(runId, trialId, criterion.id, m.v)]
        else st.addCalls
      let row : MeasurementRow := ⟨runId, trialId, dinv, dit, criterion.id, m.v⟩
      let batch := st.batch ++ [row]
      let batchedLog := st.batchedLog ++ [row]
      if batch.length = batchN then
        match ins.batchedN st.s batch with
        | (.ok n, s') => .ok ⟨st.recorded + n, [], addCalls, batchedLog, s'⟩
        | (.error e, s') =>
          if isUniqueViolationError e then
            match recordMeasurementsFromBatch ins batch s' with
            | .ok (n, s'') => .ok ⟨st.recorded + n, [], addCalls, batchedLog, s''⟩
            | .error e' => .error e'
          else .error (.db e)
      else .ok ⟨st.recorded, batch, addCalls, batchedLog, st.s⟩

/-- The residual processing after the streaming loop (src/src/db.ts lines
1162-1181): while at least 10 tuples (60 values) remain, run the fixed
10-row insert on the first 10 tuples — the catch block here recovers from a
unique violation but, unlike the batched-N path, has NO else-branch, so an
error that is not a unique violation is silently dropped and the loop
continues — then insert the remaining tuples one at a time. -/
def recordResidual {σ : Type} (ins : MeasIns σ) (batch : List MeasurementRow)
    (s : σ) : Except RmError (Nat × σ) :=
  if 10 ≤ batch.length then
    let first := batch.take 10
    let rest := batch.drop 10
    match ins.batched10 s first with
    | (.ok n, s') =>
      (recordResidual ins rest s').map (fun p => (n + p.1, p.2))
    | (.error e, s') =>
      if isUniqueViolationError e then
        match recordMeasurementsFromBatch ins first s' with
        | .ok (n, s'') =>
          (recordResidual ins rest s'').map (fun p => (n + p.1, p.2))
        | .error e' => .error e'
      else recordResidual ins rest s'
  else recordMeasurementsFromBatch ins batch s
termination_by batch.length
decreasing_by
  all_goals
    simp only [List.length_drop]
    omega

/-- `Database.recordMeasurements(dataPoints, run, trial, criteria,
availableMs)`: stream every `{c, v}` entry of every data point through the
loop body, then process the residual batch.  Returns the count of recorded
measurements, the addValue-call log, the ghost log of batched tuples, and
the final insert state. -/
def recordMeasurements {σ : Type} (ins : MeasIns σ) (timelineEnabled : Bool)
    (dataPoints : List ApiDataPoint) (runId trialId : Nat)
    (criteria : List (Nat × CriterionRow)) (availableMs : AvailMap) (s : σ) :
    Except RmError (Nat × List (Nat × Nat × Nat × Int) × List MeasurementRow × σ) := do
  let st ← dataPoints.foldlM
    (fun st d => d.m.foldlM
      (fun st m =>
        processMeasure ins timelineEnabled availableMs runId trialId criteria
          d.inv d.it m st) st)
    ⟨0, [], [], [], s⟩
  let (n, s') ← recordResidual ins st.batch st.s
  return (st.recorded + n, st.addCalls, st.batchedLog, s')

/-- The 5-column uniqueness key of a Measurement row. -/
def measKey (r : MeasurementRow) : Nat × Nat × Nat × Nat × Nat :=
  (r.runid, r.trialid, r.invocation, r.iteration, r.criterion)

/-- Sequential semantics of a single-row
`INSERT ... ON CONFLICT DO NOTHING`: append the row unless a row with the
same (runId, trialId, invocation, iteration, criterion) key is present; the
reported rowCount is 1 on insert and 0 on conflict. -/
def insertMeasurement (tbl : List MeasurementRow) (row : MeasurementRow) :
    Nat × List MeasurementRow :=
  if tbl.any (fun r => decide (measKey r = measKey row)) then (0, tbl)
  else (1, tbl ++ [row])

/-- Sequential semantics of a multi-row
`INSERT ... ON CONFLICT DO NOTHING`: the VALUES rows are processed in
order, each under conflict-skipping; rowCount counts the rows actually
inserted. -/
def insertMeasurements (tbl : List MeasurementRow)
    (rows : List MeasurementRow) : Nat × List MeasurementRow :=
  rows.foldl (fun p row =>
    (p.1 + (insertMeasurement p.2 row).1, (insertMeasurement p.2 row).2)) (0, tbl)

/-- The sequential, error-free insert behaviour: all three prepared
statements act on the measurement table and never raise. -/
def seqIns : MeasIns (List MeasurementRow) :=
  { one := fun t row => (.ok (insertMeasurement t row).1, (insertMeasurement t row).2)
    batchedN := fun t rows => (.ok (insertMeasurements t rows).1, (insertMeasurements t rows).2)
    batched10 := fun t rows =>
      (.ok (insertMeasurements t rows).1, (insertMeasurements t rows).2) }

/-- The error-injecting insert behaviour: the state is the index of the
next insert call, and the oracle `q` maps each call index to its outcome. -/
def oracleIns (q : Nat → Except DbError Nat) : MeasIns Nat :=
  { one := fun k _ => (q k, k + 1)
    batchedN := fun k _ => (q k, k + 1)
    batched10 := fun k _ => (q k, k + 1) }

/-- The per-tuple contribution to the ghost log of batched tuples. -/
def tupleBatched (avail : AvailMap) (runId trialId : Nat)
    (criteria : List (Nat × CriterionRow)) (dinv dit : Nat) (m : ApiMeasure) :
    List MeasurementRow :=
  match lookupN criteria m.c with
  | none => []
  | some crit =>
    if alreadyRecorded avail runId trialId dinv dit crit.id m.v then []
    else [⟨runId, trialId, dinv, dit, crit.id, m.v⟩]

/-- The per-tuple contribution to the log of `updater.addValue` calls. -/
def tupleAddCalls (tE : Bool) (avail : AvailMap) (runId trialId : Nat)
    (criteria : List (Nat × CriterionRow)) (dinv dit : Nat) (m : ApiMeasure) :
    List (Nat × Nat × Nat × Int) :=
  match lookupN criteria m.c with
  | none => []
  | some crit =>
    if alreadyRecorded avail runId trialId dinv dit crit.id m.v then []
    else if tE ∧ crit.name = TotalCriterion then [(runId, trialId, crit.id, m.v)]
    else []

/-- The insert oracle of the C3 failing scenario: every insert call fails
with SQLSTATE 57P01 (admin shutdown — not a unique violation). -/
def c3Oracle : Nat → Except DbError Nat := fun _ => .error ⟨"57P01"⟩

/-- A criteria map binding payload criterion index 0 to criterion id 1. -/
def c3Criteria : List (Nat × CriterionRow) := [(0, ⟨1, "total", "ms"⟩)]

/-- One data point with `n` measurement entries for criterion index 0. -/
def c3Tuples (n : Nat) : List ApiDataPoint :=
  [⟨1, 1, (List.range n).map (fun i => ⟨0, (i : Int)⟩)⟩]

/-! ## Metadata interning, completion and full ingestion (C1, C8)

Row types follow the row interfaces of src/src/db.ts (restricted to the
columns the code writes); the payload types follow the ingest payload
shape.  The `api.ts` module the payload types come from is not part of the
snapshot, so the payload fields are modelled from spec §6.  `recordCached`
is specialised to its sequential, error-free semantics `internRow`: cache
hit, else fetch by natural key, else insert a fresh row (serial id); in
this single-request semantics the insert never collides, so the
unique-violation recovery path of `recordCached` is never taken. -/

structure ExecutorRow where
  id : Nat
  name : String
  description : String
deriving DecidableEq, Repr

structure SuiteRow where
  id : Nat
  name : String
  description : String
deriving DecidableEq, Repr

structure BenchmarkRow where
  id : Nat
  name : String
  description : String
deriving DecidableEq, Repr

structure EnvironmentRow where
  id : Nat
  hostname : String
  ostype : String
  memory : Int
  cpu : String
  clockspeed : Int
deriving DecidableEq, Repr

structure ProjectRow where
  id : Nat
  name : String
  slug : String
deriving DecidableEq, Repr

structure ExperimentRow where
  id : Nat
  name : String
  projectid : Nat
  description : String
deriving DecidableEq, Repr

structure SourceRow where
  id : Nat
  repourl : String
  branchortag : String
  commitid : String
  commitmessage : String
  authorname : String
  authoremail : String
  committername : String
  committeremail : String
deriving DecidableEq, Repr

structure TrialRow where
  id : Nat
  manualrun : Bool
  starttime : String
  expid : Nat
  username : String
  envid : Nat
  sourceid : Nat
  denoise : String
  endtime : Option String
deriving DecidableEq, Repr

structure RunRow where
  id : Nat
  cmdline : String
  benchmarkid : Nat
  execid : Nat
  suiteid : Nat
  location : String
  cores : Option String
  inputsize : Option String
  varvalue : Option String
  extraargs : Option String
  maxinvocationtime : Int
  miniterationtime : Int
  warmup : Int
deriving DecidableEq, Repr

structure ProfileRow where
  runid : Nat
  trialid : Nat
  invocation : Nat
  numiterations : Nat
  value : String
deriving DecidableEq, Repr

structure ApiExecutor where
  name : String
  desc : String
deriving DecidableEq, Repr

structure ApiSuite where
  name : String
  desc : String
  executor : ApiExecutor
deriving DecidableEq, Repr

structure ApiRunDetails where
  maxInvocationTime : Int
  minIterationTime : Int
  warmup : Int
deriving DecidableEq, Repr

structure ApiBenchmark where
  name : String
  desc : String
  suite : ApiSuite
  runDetails : ApiRunDetails
deriving DecidableEq, Repr

structure ApiRunId where
  cmdline : String
  benchmark : ApiBenchmark
  location : String
  cores : Option String
  inputSize : Option String
  varValue : Option String
  extraArgs : Option String
deriving DecidableEq, Repr

structure ApiSource where
  repoURL : String
  branchOrTag : String
  commitId : String
  commitMsg : String
  authorName : String
  authorEmail : String
  committerName : String
  committerEmail : String
deriving DecidableEq, Repr

structure ApiEnvironment where
  hostName : String
  osType : String
  memory : Int
  cpu : String
  clockSpeed : Int
  userName : String
  manualRun : Bool
  denoise : String
deriving DecidableEq, Repr

structure ApiCriterion where
  i : Nat
  c : String
  u : String
deriving DecidableEq, Repr

/-- A profile payload value: either already a string (stored as-is), or a
non-string value represented by its JSON serialisation. -/
inductive ProfileVal
  | str (s : String)
  | jsonVal (serialised : String)
deriving DecidableEq, Repr

/-- The serialisation step of `recordProfiles`: a string is kept, anything
else is `JSON.stringify`-ed. -/
def serializeProfile : ProfileVal → String
  | .str s => s
  | .jsonVal s => s

structure ApiProfileData where
  inv : Nat
  nit : Nat
  d : ProfileVal
deriving DecidableEq, Repr

/-- One entry of the payload's `data` array (`in` and `it` of the payload
are `inv`/`it` here). -/
structure RunGroup where
  runId : ApiRunId
  d : Option (List ApiDataPoint)
  p : Option (List ApiProfileData)
deriving DecidableEq, Repr

structure BenchmarkData where
  projectName : String
  experimentName : String
  experimentDesc : String
  startTime : String
  env : ApiEnvironment
  source : ApiSource
  criteria : Option (List ApiCriterion)
  data : List RunGroup
deriving DecidableEq, Repr

/-- The full state of the `Database` object and its store: the tables, the
interning caches, the serial id counters, the stats-validity token, and the
timeline updater's observable side effects (the pending addValue calls and
the number of `submitUpdateJobs` calls). -/
structure DbState where
  executors : List ExecutorRow
  suites : List SuiteRow
  benchmarks : List BenchmarkRow
  runs : List RunRow
  sources : List SourceRow
  envs : List EnvironmentRow
  trials : List TrialRow
  exps : List ExperimentRow
  criteria : List CriterionRow
  projects : List ProjectRow
  units : List String
  measurements : List MeasurementRow
  profiles : List ProfileRow
  executorCache : List (String × ExecutorRow)
  suiteCache : List (String × SuiteRow)
  benchmarkCache : List (String × BenchmarkRow)
  runCache : List (String × RunRow)
  sourceCache : List (String × SourceRow)
  envCache : List (String × EnvironmentRow)
  trialCache : List (String × TrialRow)
  expCache : List (String × ExperimentRow)
  criterionCache : List (String × CriterionRow)
  projectCache : List (String × ProjectRow)
  nextExecutorId : Nat
  nextSuiteId : Nat
  nextBenchmarkId : Nat
  nextRunId : Nat
  nextSourceId : Nat
  nextEnvId : Nat
  nextTrialId : Nat
  nextExpId : Nat
  nextCriterionId : Nat
  nextProjectId : Nat
  statsValid : TimedCacheValidity
  pending : List (Nat × Nat × Nat × Int)
  timelineEnabled : Bool
  jobsSubmitted : Nat
deriving DecidableEq, Repr

/-- A fresh `Database` over an empty store (timeline updater disabled,
cache-invalidation delay 0). -/
def emptyDb : DbState :=
  { executors := [], suites := [], benchmarks := [], runs := [], sources := []
    envs := [], trials := [], exps := [], criteria := [], projects := []
    units := [], measurements := [], profiles := []
    executorCache := [], suiteCache := [], benchmarkCache := [], runCache := []
    sourceCache := [], envCache := [], trialCache := [], expCache := []
    criterionCache := [], projectCache := []
    nextExecutorId := 1, nextSuiteId := 1, nextBenchmarkId := 1, nextRunId := 1
    nextSourceId := 1, nextEnvId := 1, nextTrialId := 1, nextExpId := 1
    nextCriterionId := 1, nextProjectId := 1
    statsValid := TimedCacheValidity.create 0
    pending := [], timelineEnabled := false, jobsSubmitted := 0 }

/-- The sequential, error-free semantics of `recordCached` for one entity:
cache hit returns the cached row; otherwise the fetch-by-natural-key query
is consulted; only when it returns no row is the insert executed, creating
a fresh row under the table's serial counter.  In every non-hit branch the
returned row is cached under the key (`cache.set(cacheKey, result.rows[0])`).
Returns (row, cache, table, next id). -/
def internRow {α : Type} (cache : List (String × α)) (table : List α)
    (nextId : Nat) (key : String) (keyMatch : α → Bool) (mk : Nat → α) :
    α × List (String × α) × List α × Nat :=
  match lookupA cache key with
  | some row => (row, cache, table, nextId)
  | none =>
    match table.find? keyMatch with
    | some row => (row, (key, row) :: cache, table, nextId)
    | none =>
      (mk nextId, (key, mk nextId) :: cache, table ++ [mk nextId], nextId + 1)

/-- `Database.recordExecutor`. -/
def recordExecutor (db : DbState) (e : ApiExecutor) : ExecutorRow × DbState :=
  let r := internRow db.executorCache db.executors db.nextExecutorId e.name
    (fun row => row.name == e.name)
    (fun id => ⟨id, e.name, e.desc⟩)
  (r.1, { db with executorCache := r.2.1, executors := r.2.2.1,
                  nextExecutorId := r.2.2.2 })

/-- `Database.recordSuite`. -/
def recordSuite (db : DbState) (s : ApiSuite) : SuiteRow × DbState :=
  let r := internRow db.suiteCache db.suites db.nextSuiteId s.name
    (fun row => row.name == s.name)
    (fun id => ⟨id, s.name, s.desc⟩)
  (r.1, { db with suiteCache := r.2.1, suites := r.2.2.1, nextSuiteId := r.2.2.2 })

/-- `Database.recordBenchmark`. -/
def recordBenchmark (db : DbState) (b : ApiBenchmark) : BenchmarkRow × DbState :=
  let r := internRow db.benchmarkCache db.benchmarks db.nextBenchmarkId b.name
    (fun row => row.name == b.name)
    (fun id => ⟨id, b.name, b.desc⟩)
  (r.1, { db with benchmarkCache := r.2.1, benchmarks := r.2.2.1,
                  nextBenchmarkId := r.2.2.2 })

/-- The slug of `INSERT INTO Project`: `regexp_replace($2,
'[^0-9a-zA-Z-]', '-', 'g')`. -/
def slugify (s : String) : String :=
  ⟨s.data.map (fun ch => if ch.isAlphanum || ch == '-' then ch else '-')⟩

/-- `Database.recordProject`. -/
def recordProject (db : DbState) (projectName : String) : ProjectRow × DbState :=
  let r := internRow db.projectCache db.projects db.nextProjectId projectName
    (fun row => row.name == projectName)
    (fun id => ⟨id, projectName, slugify projectName⟩)
  (r.1, { db with projectCache := r.2.1, projects := r.2.2.1,
                  nextProjectId := r.2.2.2 })

/-- `Database.recordSource`. -/
def recordSource (db : DbState) (s : ApiSource) : SourceRow × DbState :=
  let r := internRow db.sourceCache db.sources db.nextSourceId s.commitId
    (fun row => row.commitid == s.commitId)
    (fun id => ⟨id, s.repoURL, s.branchOrTag, s.commitId, s.commitMsg,
      s.authorName, s.authorEmail, s.committerName, s.committerEmail⟩)
  (r.1, { db with sourceCache := r.2.1, sources := r.2.2.1,
                  nextSourceId := r.2.2.2 })

/-- `Database.recordEnvironment`. -/
def recordEnvironment (db : DbState) (e : ApiEnvironment) :
    EnvironmentRow × DbState :=
  let r := internRow db.envCache db.envs db.nextEnvId e.hostName
    (fun row => row.hostname == e.hostName)
    (fun id => ⟨id, e.hostName, e.osType, e.memory, e.cpu, e.clockSpeed⟩)
  (r.1, { db with envCache := r.2.1, envs := r.2.2.1, nextEnvId := r.2.2.2 })

/-- The cache key of `recordExperiment`:
`${data.projectName}::${data.experimentName}`. -/
def expCacheKey (projectName experimentName : String) : String :=
  projectName ++ "::" ++ experimentName

/-- `Database.recordExperiment`: an early cache check, then the project is
interned, then the experiment. -/
def recordExperiment (db : DbState) (data : BenchmarkData) :
    ExperimentRow × DbState :=
  let cacheKey := expCacheKey data.projectName data.experimentName
  match lookupA db.expCache cacheKey with
  | some e => (e, db)
  | none =>
    let pr := recordProject db data.projectName
    let r := internRow pr.2.expCache pr.2.exps pr.2.nextExpId cacheKey
      (fun row => row.projectid == pr.1.id && row.name == data.experimentName)
      (fun id => ⟨id, data.experimentName, pr.1.id, data.experimentDesc⟩)
    (r.1, { pr.2 with expCache := r.2.1, exps := r.2.2.1, nextExpId := r.2.2.2 })

/-- The cache key of `recordTrial`:
`${userName}-${env.id}-${data.startTime}-${exp.id}`. -/
def trialCacheKey (userName : String) (envId : Nat) (startTime : String)
    (expId : Nat) : String :=
  userName ++ "-" ++ toString envId ++ "-" ++ startTime ++ "-" ++ toString expId

/-- `Database.recordTrial`: an early cache check, then the source is
interned, then the trial (endTime starts NULL). -/
def recordTrial (db : DbState) (data : BenchmarkData) (env : EnvironmentRow)
    (exp : ExperimentRow) : TrialRow × DbState :=
  let e := data.env
  let cacheKey := trialCacheKey e.userName env.id data.startTime exp.id
  match lookupA db.trialCache cacheKey with
  | some t => (t, db)
  | none =>
    let sr := recordSource db data.source
    let r := internRow sr.2.trialCache sr.2.trials sr.2.nextTrialId cacheKey
      (fun row => row.username == e.userName && row.envid == env.id
        && row.starttime == data.startTime && row.expid == exp.id)
      (fun id => ⟨id, e.manualRun, data.startTime, exp.id, e.userName, env.id,
        sr.1.id, e.denoise, none⟩)
    (r.1, { sr.2 with trialCache := r.2.1, trials := r.2.2.1,
                      nextTrialId := r.2.2.2 })

/-- `Database.recordRun`: an early cache check on the cmdline; otherwise
the executor, suite and benchmark are interned first, then the run. -/
def recordRun (db : DbState) (run : ApiRunId) : RunRow × DbState :=
  match lookupA db.runCache run.cmdline with
  | some r => (r, db)
  | none =>
    let er := recordExecutor db run.benchmark.suite.executor
    let xr := recordSuite er.2 run.benchmark.suite
    let br := recordBenchmark xr.2 run.benchmark
    let r := internRow br.2.runCache br.2.runs br.2.nextRunId run.cmdline
      (fun row => row.cmdline == run.cmdline)
      (fun id => ⟨id, run.cmdline, br.1.id, er.1.id, xr.1.id, run.location,
        run.cores, run.inputSize, run.varValue, run.extraArgs,
        run.benchmark.runDetails.maxInvocationTime,
        run.benchmark.runDetails.minIterationTime,
        run.benchmark.runDetails.warmup⟩)
    (r.1, { br.2 with runCache := r.2.1, runs := r.2.2.1, nextRunId := r.2.2.2 })

/-- `Database.recordUnit`: fetch by name, insert when absent (no cache, no
RETURNING). -/
def recordUnit (db : DbState) (unitName : String) : DbState :=
  if db.units.contains unitName then db
  else { db with units := db.units ++ [unitName] }

/-- The cache key of `recordCriterion`: `${c.c}::${c.u}`. -/
def criterionCacheKey (c : ApiCriterion) : String :=
  c.c ++ "::" ++ c.u

/-- `Database.recordCriterion`: an early cache check, then the unit is
recorded, then the criterion interned. -/
def recordCriterion (db : DbState) (c : ApiCriterion) : CriterionRow × DbState :=
  match lookupA db.criterionCache (criterionCacheKey c) with
  | some r => (r, db)
  | none =>
    let db1 := recordUnit db c.u
    let r := internRow db1.criterionCache db1.criteria db1.nextCriterionId
      (criterionCacheKey c)
      (fun row => row.name == c.c && row.unit == c.u)
      (fun id => ⟨id, c.c, c.u⟩)
    (r.1, { db1 with criterionCache := r.2.1, criteria := r.2.2.1,
                     nextCriterionId := r.2.2.2 })

/-- `Database.resolveCriteria`: `criteria.set(c.i, recordCriterion(c))` for
each payload criterion; the most recent `set` for an index wins (consed at
the front, first match on lookup). -/
def resolveCriteria (db : DbState) (cs : List ApiCriterion) :
    List (Nat × CriterionRow) × DbState :=
  cs.foldl (fun acc c =>
    ((c.i, (recordCriterion acc.2 c).1) :: acc.1, (recordCriterion acc.2 c).2))
    ([], db)

/-- `Database.recordMetaData`: environment, experiment, trial, then the
criteria map (null when the payload has no criteria array). -/
def recordMetaData (db : DbState) (data : BenchmarkData) :
    (EnvironmentRow × ExperimentRow × TrialRow
      × Option (List (Nat × CriterionRow))) × DbState :=
  let er := recordEnvironment db data.env
  let xr := recordExperiment er.2 data
  let tr := recordTrial xr.2 data er.1 xr.1
  match data.criteria with
  | some cs =>
    let cr := resolveCriteria tr.2 cs
    ((er.1, xr.1, tr.1, some cr.1), cr.2)
  | none => ((er.1, xr.1, tr.1, none), tr.2)

/-- The 4-column uniqueness key of a ProfileData row. -/
def profileKey (r : ProfileRow) : Nat × Nat × Nat × Nat :=
  (r.runid, r.trialid, r.invocation, r.numiterations)

/-- `Database.recordProfile`: a single-row `INSERT ... ON CONFLICT DO
NOTHING` on (runId, trialId, invocation, numIterations). -/
def recordProfile (tbl : List ProfileRow) (runId trialId inv nit : Nat)
    (value : String) : Nat × List ProfileRow :=
  if tbl.any (fun r => decide (profileKey r = (runId, trialId, inv, nit))) then (0, tbl)
  else (1, tbl ++ [⟨runId, trialId, inv, nit, value⟩])

/-- `Database.recordProfiles`: serialize and insert each profile, summing
the reported rowCounts. -/
def recordProfiles (profiles : List ApiProfileData) (runId trialId : Nat)
    (tbl : List ProfileRow) : Nat × List ProfileRow :=
  profiles.foldl (fun p pr =>
    ((p.1 + (recordProfile p.2 runId trialId pr.inv pr.nit
        (serializeProfile pr.d)).1),
     (recordProfile p.2 runId trialId pr.inv pr.nit (serializeProfile pr.d)).2))
    (0, tbl)

/-- The grouped rows of `retrieveAvailableMeasurements`' SQL (`GROUP BY
runId, criterion, invocation` with `max(iteration)` over one trial). -/
def groupedMeasurements (tbl : List MeasurementRow) (trialId : Nat) :
    List (Nat × Nat × Nat × Nat) :=
  let rows := tbl.filter (fun r => r.trialid == trialId)
  ((rows.map (fun r => (r.runid, r.criterion, r.invocation))).dedup).map
    (fun k => (k.1, k.2.1, k.2.2,
      ((rows.filter (fun r =>
          r.runid == k.1 && r.criterion == k.2.1 && r.invocation == k.2.2)).map
        (fun r => r.iteration)).foldl max 0))

/-- One round of the JS loop of `retrieveAvailableMeasurements`:
`measurements[runid][criterion][inv] = ite` on the nested object, with the
missing intermediate objects created on the way. -/
def availStep (m : AvailMap) (k : Nat × Nat × Nat × Nat) : AvailMap :=
  setN m k.1 (setN ((lookupN m k.1).getD [])
    k.2.1 (setN ((lookupN ((lookupN m k.1).getD []) k.2.1).getD [])
      k.2.2.1 k.2.2.2))

/-- The JS loop of `retrieveAvailableMeasurements`, building the nested
object `measurements[runid][criterion][inv] = ite`. -/
def buildAvail (rows : List (Nat × Nat × Nat × Nat)) : AvailMap :=
  rows.foldl availStep []

/-- `Database.retrieveAvailableMeasurements(trialId)`. -/
def retrieveAvailableMeasurements (tbl : List MeasurementRow) (trialId : Nat) :
    AvailMap :=
  buildAvail (groupedMeasurements tbl trialId)

/-- `this.statsValid = this.statsValid.invalidateAndNew()`: the token the
assignment stores (still `this` while valid, the fresh token otherwise). -/
def invalidatedToken (s : TimedCacheValidity) : TimedCacheValidity :=
  match s.invalidateAndNew with
  | (s1, none) => s1
  | (_, some fresh) => fresh

/-- One round of `recordAllData`'s loop over the `data` array of run
groups (the accumulator carries the store and the running measurement and
profile counts): intern the run, fetch the available-measurements map for
the trial and record the measurements (collecting the updater's addValue
calls into `pending`), then record the profiles. -/
def recordRunGroup (trialId : Nat) (critMap : List (Nat × CriterionRow))
    (acc : DbState × Nat × Nat) (r : RunGroup) : Option (DbState × Nat × Nat) := do
  let rr := recordRun acc.1 r.runId
  let dbA := rr.2
  let mRes ← match r.d with
    | some dps =>
      let availableMs := retrieveAvailableMeasurements dbA.measurements trialId
      match recordMeasurements seqIns dbA.timelineEnabled dps rr.1.id trialId
          critMap availableMs dbA.measurements with
      | .ok (n, calls, _log, tbl') =>
        some ({ dbA with measurements := tbl',
                         pending := dbA.pending ++ calls }, n)
      | .error _ => none
    | none => some (dbA, 0)
  let pRes := match r.p with
    | some ps => recordProfiles ps rr.1.id trialId mRes.1.profiles
    | none => (0, mRes.1.profiles)
  return ({ mRes.1 with profiles := pRes.2 },
    acc.2.1 + mRes.2, acc.2.2 + pRes.1)

/-- `Database.recordAllData(data, suppressTimelineGeneration)` under the
sequential semantics: invalidate the stats-cache token, record the
metadata, then process each run group, and finally bump `jobsSubmitted`
when measurements were recorded and the updater is enabled and not
suppressed.  Returns `none` when the TypeError of a missing criteria entry
propagates. -/
def recordAllData (db : DbState) (data : BenchmarkData)
    (suppressTimelineGeneration : Bool) : Option (DbState × Nat × Nat) := do
  let db0 := { db with statsValid := invalidatedToken db.statsValid }
  let md := recordMetaData db0 data
  let trial := md.1.2.2.1
  let criteria := md.1.2.2.2
  let st ← data.data.foldlM (recordRunGroup trial.id (criteria.getD []))
    (md.2, 0, 0)
  let dbF :=
    if 0 < st.2.1 && st.1.timelineEnabled && !suppressTimelineGeneration then
      { st.1 with jobsSubmitted := st.1.jobsSubmitted + 1 }
    else st.1
  return (dbF, st.2.1, st.2.2)

/-- The experiment row of the SQL join of `getExperimentByNames` (project
by name, experiment by project id and name). -/
def tableExperiment (db : DbState) (projectName experimentName : String) :
    Option ExperimentRow :=
  match db.projects.find? (fun p => p.name == projectName) with
  | none => none
  | some p => db.exps.find? (fun e =>
      e.projectid == p.id && e.name == experimentName)

/-- `Database.getExperimentByNames`: the experiment cache first, then the
join query; `undefined` when no row is found. -/
def getExperimentByNames (db : DbState) (projectName experimentName : String) :
    Option ExperimentRow :=
  match lookupA db.expCache (expCacheKey projectName experimentName) with
  | some e => some e
  | none => tableExperiment db projectName experimentName

/-- The completion payload `{ projectName, experimentName, endTime }`;
`endTime` is optional. -/
structure BenchmarkCompletion where
  projectName : String
  experimentName : String
  endTime : Option String
deriving DecidableEq, Repr

/-- `Database.recordExperimentCompletion(expId, endTime)`: `UPDATE Trial
SET endTime = $2 WHERE expId = $1 AND endTime IS NULL`. -/
def recordExperimentCompletion (trials : List TrialRow) (expId : Nat)
    (endTime : String) : List TrialRow :=
  trials.map (fun t =>
    if t.expid == expId && t.endtime == none then { t with endtime := some endTime }
    else t)

/-- `Database.reportCompletion(data)` (src/src/db.ts lines 944-964): look
the experiment up, throw when it is absent; throw when `!data.endTime` (in
JS the check is also true for the empty string); otherwise update the open
trials and return the experiment. -/
def reportCompletion (db : DbState) (data : BenchmarkCompletion) :
    Except String (ExperimentRow × DbState) :=
  match getExperimentByNames db data.projectName data.experimentName with
  | none => .error ("Could not record completion, no experiment found for "
      ++ data.projectName ++ " " ++ data.experimentName)
  | some exp =>
    match data.endTime with
    | none => .error "Could not record completion without endTime"
    | some et =>
      if et == "" then .error "Could not record completion without endTime"
      else .ok (exp,
        { db with trials := recordExperimentCompletion db.trials exp.id et })

/-- The store of the C8 scenario: one project `p` holding one experiment
`e`; caches empty. -/
def c8Db : DbState :=
  { emptyDb with projects := [⟨1, "p", "p"⟩], exps := [⟨1, "e", 1, ""⟩] }

/-- Coverage of one run group by a store: the group's cmdline is interned
in the run cache, every measurement tuple of the group resolves its
criterion and has a Measurement row (for the interned run, the given
trial) whose iteration is at least the tuple's, and every profile of the
group has its ProfileData row present. -/
def GroupCov (trialId : Nat) (critMap : List (Nat × CriterionRow))
    (db : DbState) (g : RunGroup) : Prop :=
  ∃ rrow : RunRow, lookupA db.runCache g.runId.cmdline = some rrow
    ∧ (∀ dps, g.d = some dps → ∀ dp ∈ dps, ∀ mm ∈ dp.m,
        ∃ crit, lookupN critMap mm.c = some crit
          ∧ ∃ row ∈ db.measurements, row.runid = rrow.id ∧ row.trialid = trialId
              ∧ row.invocation = dp.inv ∧ row.criterion = crit.id
              ∧ dp.it ≤ row.iteration)
    ∧ (∀ ps, g.p = some ps → ∀ pr ∈ ps,
        ∃ row ∈ db.profiles, profileKey row = (rrow.id, trialId, pr.inv, pr.nit))

/-- Replay of one run group against a store it leaves unchanged: the run
is a cache hit, recording the group's measurements skips every tuple, and
recording its profiles conflicts on every row. -/
def GroupReplay (trialId : Nat) (critMap : List (Nat × CriterionRow))
    (db : DbState) (g : RunGroup) : Prop :=
  ∃ rrow : RunRow, recordRun db g.runId = (rrow, db)
    ∧ (∀ dps, g.d = some dps →
        recordMeasurements seqIns db.timelineEnabled dps rrow.id trialId critMap
          (retrieveAvailableMeasurements db.measurements trialId) db.measurements
          = .ok (0, [], [], db.measurements))
    ∧ (∀ ps, g.p = some ps →
        recordProfiles ps rrow.id trialId db.profiles = (0, db.profiles))

/-- A small ingestion payload: one run group carrying one profile and no
data points, no criteria array. -/
def c1Data : BenchmarkData :=
  { projectName := "proj", experimentName := "exp", experimentDesc := "d"
    startTime := "t0"
    env := { hostName := "h", osType := "linux", memory := 16, cpu := "c"
             clockSpeed := 1, userName := "u", manualRun := false
             denoise := "{}" }
    source := { repoURL := "r", branchOrTag := "main", commitId := "abc"
                commitMsg := "m", authorName := "a", authorEmail := "ae"
                committerName := "cn", committerEmail := "ce" }
    criteria := none
    data := [⟨⟨"./run", ⟨"b", "bd", ⟨"s", "sd", ⟨"x", "xd"⟩⟩, ⟨10, 1, 0⟩⟩,
               "l", none, none, none, none⟩,
              none, some [⟨1, 5, .str "prof"⟩]⟩] }

/-- The outcome of ingesting `c1Data` into the empty store. -/
def c1Res : DbState × Nat × Nat :=
  (recordAllData emptyDb c1Data false).getD (emptyDb, 0, 0)

/-! ## Theorems -/

theorem joinSep_dollar (x : String) (xs : List String) :
    "$" ++ joinSep ", $" (x :: xs) = joinSep ", " ((x :: xs).map (fun s => "$" ++ s)) := by
  induction xs generalizing x with
  | nil => rfl
  | cons y ys ih =>
    show "$" ++ (x ++ ", $" ++ joinSep ", $" (y :: ys)) =
      ("$" ++ x) ++ ", " ++ joinSep ", " ((y :: ys).map (fun s => "$" ++ s))
    rw [← ih y]
    apply String.ext
    simp [String.data_append]

theorem flatMap_range'_consecutive (n s : Nat) :
    (List.range n).flatMap (fun i => List.range' (i * s + 1) s) = List.range' 1 (n * s) := by
  induction n with
  | zero => simp
  | succ k ih =>
    rw [List.range_succ, List.flatMap_append, ih]
    simp only [List.flatMap_cons, List.flatMap_nil, List.append_nil]
    have h := List.range'_append 1 (k * s) s 1
    simp only [one_mul] at h
    rw [show k * s + 1 = 1 + k * s by omega, h]
    congr 1
    ring

theorem tupleNums_eq_range' (i s : Nat) :
    (List.range s).map (fun j => i * s + (j + 1)) = List.range' (i * s + 1) s := by
  rw [List.range'_eq_map_range]
  apply List.map_congr_left
  intro j _
  omega

theorem generateBatchInsert_group_eq (s i : Nat) (hs : 1 ≤ s) :
    "($" ++ joinSep ", $" (((List.range s).map (fun j => i * s + (j + 1))).map toString) ++ ")"
      = batchInsertGroupSpec s i := by
  obtain ⟨k, rfl⟩ : ∃ k, s = k + 1 := ⟨s - 1, by omega⟩
  rw [tupleNums_eq_range', batchInsertGroupSpec]
  rw [show (List.range' (i * (k + 1) + 1) (k + 1)).map (fun n => "$" ++ toString n)
      = ((List.range' (i * (k + 1) + 1) (k + 1)).map toString).map (fun s => "$" ++ s) by
    rw [List.map_map]
    rfl]
  rw [List.range'_succ, List.map_cons]
  rw [← joinSep_dollar]
  apply String.ext
  simp [String.data_append]

set_option maxRecDepth 40000 in
/-- C10: for every `numTuples ≥ 1` and `sizeTuples ≥ 1`, `generateBatchInsert`
produces exactly `numTuples` parenthesized placeholder groups joined by
commas, group `i` (0-based) holding the `sizeTuples` placeholders
`$(i*sizeTuples+1)` through `$((i+1)*sizeTuples)` in increasing order, so the
placeholders across the whole statement are numbered consecutively from `$1`
to `$(numTuples*sizeTuples)`; in particular the generated 50-row measurement
insert uses the placeholders `$1` through `$300`. -/
theorem generateBatchInsert_spec (numTuples sizeTuples : Nat)
    (_hn : 1 ≤ numTuples) (hs : 1 ≤ sizeTuples) :
    generateBatchInsert numTuples sizeTuples
        = joinSep ",\n" ((List.range numTuples).map (batchInsertGroupSpec sizeTuples))
      ∧ (List.range numTuples).flatMap
            (fun i => List.range' (i * sizeTuples + 1) sizeTuples)
          = List.range' 1 (numTuples * sizeTuples)
      ∧ extractPlaceholders (generateBatchInsert 50 6).data = List.range' 1 300 := by
  refine ⟨?_, flatMap_range'_consecutive _ _, by decide⟩
  show joinSep ",\n" ((List.range numTuples).map fun i =>
      "($" ++ joinSep ", $"
          (((List.range sizeTuples).map (fun j => i * sizeTuples + (j + 1))).map toString)
        ++ ")") = _
  congr 1
  apply List.map_congr_left
  intro i _
  exact generateBatchInsert_group_eq sizeTuples i hs

theorem sobMarker_not_prefixOf_nl (xs : List Char) :
    sobMarker.isPrefixOf ('\n' :: xs) = false := rfl

theorem nl_not_mem_sobMarker : '\n' ∉ sobMarker := by decide

theorem isPrefixOf_append_nl (m : List Char) (hm : '\n' ∉ m) :
    ∀ pre post : List Char, m.isPrefixOf (pre ++ '\n' :: post) = m.isPrefixOf pre := by
  induction m with
  | nil => intro pre post; simp [List.isPrefixOf]
  | cons a m' ih =>
    intro pre post
    cases pre with
    | nil =>
      have ha : (a == '\n') = false := by
        refine beq_eq_false_iff_ne.mpr (fun e => hm ?_)
        rw [e]
        exact List.mem_cons_self _ _
      simp [List.isPrefixOf, ha]
    | cons b pre' =>
      simp only [List.cons_append, List.isPrefixOf, List.append_eq]
      rw [ih (fun hx => hm (List.mem_cons_of_mem a hx)) pre' post]

theorem stripGo_true_no_nl (l : List Char) (h : '\n' ∉ l) : stripGo true l = [] := by
  induction l with
  | nil => rfl
  | cons c rest ih =>
    have hc : ¬ c = '\n' := by
      intro e
      exact h (by rw [e]; exact List.mem_cons_self _ _)
    simp only [stripGo, if_neg hc]
    exact ih (fun hx => h (List.mem_cons_of_mem c hx))

theorem stripGo_true_append (pre post : List Char) (h : '\n' ∉ pre) :
    stripGo true (pre ++ '\n' :: post) = '\n' :: stripGo false post := by
  induction pre with
  | nil => simp [stripGo]
  | cons c pre' ih =>
    have hc : ¬ c = '\n' := by
      intro e
      exact h (by rw [e]; exact List.mem_cons_self _ _)
    simp only [List.cons_append, stripGo, if_neg hc]
    exact ih (fun hx => h (List.mem_cons_of_mem c hx))

theorem stripGo_false_no_nl (l : List Char) (h : '\n' ∉ l) :
    stripGo false l = stripLine l := by
  induction l with
  | nil => rfl
  | cons c rest ih =>
    have hrest : '\n' ∉ rest := fun hx => h (List.mem_cons_of_mem c hx)
    by_cases hp : sobMarker.isPrefixOf (c :: rest) = true
    · simp only [stripGo, stripLine, hp, if_pos]
      exact stripGo_true_no_nl rest hrest
    · simp only [stripGo, stripLine, hp, if_neg, Bool.false_eq_true, not_false_eq_true]
      rw [ih hrest]

theorem stripGo_false_append (pre post : List Char) (h : '\n' ∉ pre) :
    stripGo false (pre ++ '\n' :: post) = stripLine pre ++ '\n' :: stripGo false post := by
  induction pre with
  | nil =>
    simp only [List.nil_append, stripGo, sobMarker_not_prefixOf_nl, stripLine]
    simp
  | cons c pre' ih =>
    have hpre' : '\n' ∉ pre' := fun hx => h (List.mem_cons_of_mem c hx)
    have hsplit : sobMarker.isPrefixOf (c :: (pre' ++ '\n' :: post))
        = sobMarker.isPrefixOf (c :: pre') := by
      have := isPrefixOf_append_nl sobMarker nl_not_mem_sobMarker (c :: pre') post
      simpa using this
    by_cases hp : sobMarker.isPrefixOf (c :: pre') = true
    · simp only [List.cons_append, stripGo, List.append_eq, hsplit, hp, if_true, stripLine,
        List.nil_append]
      exact stripGo_true_append pre' post hpre'
    · simp only [List.cons_append, stripGo, List.append_eq, hsplit, hp, if_false, stripLine,
        ite_false, eq_self_iff_true]
      rw [ih hpre']
      simp

theorem splitNl_ne_nil (l : List Char) : splitNl l ≠ [] := by
  cases l with
  | nil => simp [splitNl]
  | cons c rest =>
    simp only [splitNl]
    by_cases hc : c = '\n'
    · simp [hc]
    · simp only [hc, if_neg, not_false_eq_true]
      cases hrec : splitNl rest <;> simp

theorem splitNl_no_nl (l : List Char) (h : '\n' ∉ l) : splitNl l = [l] := by
  induction l with
  | nil => rfl
  | cons c rest ih =>
    have hc : ¬ c = '\n' := by
      intro e
      exact h (by rw [e]; exact List.mem_cons_self _ _)
    simp only [splitNl, if_neg hc]
    rw [ih (fun hx => h (List.mem_cons_of_mem c hx))]

theorem splitNl_append (pre post : List Char) (h : '\n' ∉ pre) :
    splitNl (pre ++ '\n' :: post) = pre :: splitNl post := by
  induction pre with
  | nil => simp [splitNl]
  | cons c pre' ih =>
    have hc : ¬ c = '\n' := by
      intro e
      exact h (by rw [e]; exact List.mem_cons_self _ _)
    simp only [List.cons_append, splitNl, if_neg hc, List.append_eq]
    rw [ih (fun hx => h (List.mem_cons_of_mem c hx))]

theorem exists_first_nl {l : List Char} (h : '\n' ∈ l) :
    ∃ pre post, '\n' ∉ pre ∧ l = pre ++ '\n' :: post := by
  induction l with
  | nil => cases h
  | cons c rest ih =>
    by_cases hc : c = '\n'
    · exact ⟨[], rest, by simp, by rw [hc]; rfl⟩
    · have hr : '\n' ∈ rest := by
        rcases List.mem_cons.mp h with h1 | h2
        · exact absurd h1.symm hc
        · exact h2
      obtain ⟨pre, post, h1, h2⟩ := ih hr
      refine ⟨c :: pre, post, ?_, by rw [h2]; rfl⟩
      intro hx
      rcases List.mem_cons.mp hx with h3 | h4
      · exact hc h3.symm
      · exact h1 h4

theorem stripSignedOff_eq_lines (l : List Char) :
    stripSignedOff l = joinNl ((splitNl l).map stripLine) := by
  generalize hn : l.length = n
  induction n using Nat.strong_induction_on generalizing l with
  | _ n ih =>
    by_cases hnl : '\n' ∈ l
    · obtain ⟨pre, post, hpre, rfl⟩ := exists_first_nl hnl
      rw [stripSignedOff, stripGo_false_append pre post hpre, splitNl_append pre post hpre]
      simp only [List.map_cons]
      have hne : (splitNl post).map stripLine ≠ [] := by
        intro hx
        exact splitNl_ne_nil post (List.map_eq_nil_iff.mp hx)
      obtain ⟨y, ys, hys⟩ := List.exists_cons_of_ne_nil hne
      rw [hys]
      show stripLine pre ++ '\n' :: stripGo false post
        = stripLine pre ++ '\n' :: joinNl (y :: ys)
      have hlt : post.length < n := by
        rw [← hn]
        simp only [List.length_append, List.length_cons]
        omega
      have hpost := ih post.length hlt post rfl
      rw [stripSignedOff] at hpost
      rw [hpost, hys]
    · rw [splitNl_no_nl l hnl]
      simp only [List.map_cons, List.map_nil]
      show stripGo false l = stripLine l
      exact stripGo_false_no_nl l hnl

instance exceptDecEq {ε α : Type} [DecidableEq ε] [DecidableEq α] :
    DecidableEq (Except ε α) := fun x y =>
  match x, y with
  | .ok a, .ok b =>
    if h : a = b then .isTrue (by rw [h]) else
      .isFalse (by intro hx; injection hx with h2; exact h h2)
  | .ok _, .error _ => .isFalse (fun hx => Except.noConfusion hx)
  | .error _, .ok _ => .isFalse (fun hx => Except.noConfusion hx)
  | .error e, .error f =>
    if h : e = f then .isTrue (by rw [h]) else
      .isFalse (by intro hx; injection hx with h2; exact h h2)

set_option maxRecDepth 8000 in
set_option synthInstance.maxSize 512 in
/-- C3 is wrong about the residual 10-row batches: with ten tuples left
over after the streaming loop, a 10-row batched insert failing with
SQLSTATE 57P01 (not a unique violation) is silently dropped — the catch
block at src/src/db.ts lines 1168-1174 has no else-branch — and the call
returns successfully with 0 recorded measurements instead of aborting the
request.  The same error during the full 50-tuple batched insert IS
propagated, as the claim states, as is a non-unique-violation error of a
tuple-at-a-time insert. -/
theorem recordMeasurements_batch10_swallows_error :
    recordMeasurements (oracleIns c3Oracle) false (c3Tuples 10) 7 9 c3Criteria [] 0
        = .ok (0, [], (List.range 10).map (fun i : Nat => (⟨7, 9, 1, 1, 1, Int.ofNat i⟩ : MeasurementRow)), 1)
      ∧ recordMeasurements (oracleIns c3Oracle) false (c3Tuples 50) 7 9 c3Criteria [] 0
          = .error (.db ⟨"57P01"⟩)
      ∧ recordMeasurementsFromBatch (oracleIns c3Oracle)
            [⟨7, 9, 1, 1, 1, 0⟩] 0 = .error (.db ⟨"57P01"⟩)
      ∧ isUniqueViolationError ⟨"57P01"⟩ = false := by
  refine ⟨?_, by decide, by decide, by decide⟩
  have hfold : (c3Tuples 10).foldlM
      (fun (st : MeasLoopState Nat) d => d.m.foldlM
        (fun st m =>
          processMeasure (oracleIns c3Oracle) false [] 7 9 c3Criteria
            d.inv d.it m st) st)
      ⟨0, [], [], [], 0⟩
      = .ok ⟨0, (List.range 10).map (fun i : Nat => (⟨7, 9, 1, 1, 1, Int.ofNat i⟩ : MeasurementRow)), [],
          (List.range 10).map (fun i : Nat => (⟨7, 9, 1, 1, 1, Int.ofNat i⟩ : MeasurementRow)), 0⟩ := by
    decide
  rw [recordMeasurements, hfold]
  show (recordResidual (oracleIns c3Oracle)
      ((List.range 10).map (fun i : Nat => (⟨7, 9, 1, 1, 1, Int.ofNat i⟩ : MeasurementRow))) 0).bind _ = _
  rw [recordResidual]
  simp [oracleIns, c3Oracle, isUniqueViolationError, recordResidual,
    recordMeasurementsFromBatch, List.range_succ]
  decide

theorem alreadyRecorded_iff (avail : AvailMap) (runId trialId inv ite critId : Nat)
    (v : Int) :
    alreadyRecorded avail runId trialId inv ite critId v = true
      ↔ ∃ maxIte, lookup3 avail runId critId inv = some maxIte ∧ ite ≤ maxIte := by
  unfold alreadyRecorded lookup3
  cases h1 : lookupN avail runId with
  | none => simp
  | some run =>
    cases h2 : lookupN run critId with
    | none => simp [h2]
    | some crit =>
      cases h3 : lookupN crit inv with
      | none => simp [h2, h3]
      | some maxIte => simp [h2, h3]

theorem processMeasure_ok_char {σ : Type} (ins : MeasIns σ) (tE : Bool)
    (avail : AvailMap) (runId trialId : Nat)
    (criteria : List (Nat × CriterionRow)) (dinv dit : Nat) (m : ApiMeasure)
    (st st' : MeasLoopState σ)
    (h : processMeasure ins tE avail runId trialId criteria dinv dit m st = .ok st') :
    st'.batchedLog
        = st.batchedLog ++ tupleBatched avail runId trialId criteria dinv dit m
      ∧ st'.addCalls
        = st.addCalls ++ tupleAddCalls tE avail runId trialId criteria dinv dit m := by
  unfold processMeasure at h
  unfold tupleBatched tupleAddCalls
  cases hlk : lookupN criteria m.c with
  | none => rw [hlk] at h; exact absurd h (by simp)
  | some crit =>
    rw [hlk] at h
    dsimp only [] at h
    split at h
    · rename_i hskip
      injection h with h
      subst h
      simp [hskip]
    · rename_i hskip
      split at h
      · split at h
        · rename_i n s2 h2
          injection h with h
          subst h
          simp [hskip]
          try (split <;> simp)
        · rename_i e s2 h2
          split at h
          · split at h
            · rename_i n s3 h3
              injection h with h
              subst h
              simp [hskip]
              try (split <;> simp)
            · exact absurd h (by simp)
          · exact absurd h (by simp)
      · injection h with h
        subst h
        simp [hskip]
        try (split <;> simp)

theorem foldlM_log_char {σ β : Type}
    (body : MeasLoopState σ → β → Except RmError (MeasLoopState σ))
    (f : β → List MeasurementRow) (g : β → List (Nat × Nat × Nat × Int))
    (hbody : ∀ st b st', body st b = .ok st' →
        st'.batchedLog = st.batchedLog ++ f b ∧ st'.addCalls = st.addCalls ++ g b) :
    ∀ (l : List β) (st st' : MeasLoopState σ), l.foldlM body st = .ok st' →
      st'.batchedLog = st.batchedLog ++ l.flatMap f
        ∧ st'.addCalls = st.addCalls ++ l.flatMap g := by
  intro l
  induction l with
  | nil =>
    intro st st' h
    rw [List.foldlM_nil] at h
    injection h with h
    subst h
    simp
  | cons b rest ih =>
    intro st st' h
    rw [List.foldlM_cons] at h
    cases hb : body st b with
    | error e =>
      rw [hb] at h
      exact absurd h (by simp [Bind.bind, Except.bind])
    | ok st1 =>
      rw [hb] at h
      have h' : rest.foldlM body st1 = .ok st' := h
      obtain ⟨h1, h2⟩ := hbody st b st1 hb
      obtain ⟨h3, h4⟩ := ih st1 st' h'
      rw [List.flatMap_cons, List.flatMap_cons]
      constructor
      · rw [h3, h1, List.append_assoc]
      · rw [h4, h2, List.append_assoc]

theorem recordMeasurements_char {σ : Type} (ins : MeasIns σ) (tE : Bool)
    (dps : List ApiDataPoint) (runId trialId : Nat)
    (criteria : List (Nat × CriterionRow)) (avail : AvailMap) (s0 : σ)
    (n : Nat) (calls : List (Nat × Nat × Nat × Int)) (log : List MeasurementRow) (sF : σ)
    (h : recordMeasurements ins tE dps runId trialId criteria avail s0
        = .ok (n, calls, log, sF)) :
    log = dps.flatMap (fun d =>
        d.m.flatMap (tupleBatched avail runId trialId criteria d.inv d.it))
      ∧ calls = dps.flatMap (fun d =>
        d.m.flatMap (tupleAddCalls tE avail runId trialId criteria d.inv d.it)) := by
  unfold recordMeasurements at h
  cases hfold : dps.foldlM
      (fun st d => d.m.foldlM
        (fun st m =>
          processMeasure ins tE avail runId trialId criteria d.inv d.it m st) st)
      (⟨0, [], [], [], s0⟩ : MeasLoopState σ) with
  | error e =>
    rw [hfold] at h
    exact absurd h (by simp [Bind.bind, Except.bind])
  | ok st =>
    rw [hfold] at h
    have h' : (recordResidual ins st.batch st.s).bind
        (fun p => pure (st.recorded + p.1, st.addCalls, st.batchedLog, p.2))
          = Except.ok (n, calls, log, sF) := h
    have hchar := foldlM_log_char
      (fun st d => d.m.foldlM
        (fun st m =>
          processMeasure ins tE avail runId trialId criteria d.inv d.it m st) st)
      (fun d => d.m.flatMap (tupleBatched avail runId trialId criteria d.inv d.it))
      (fun d => d.m.flatMap (tupleAddCalls tE avail runId trialId criteria d.inv d.it))
      (fun st d st' hd =>
        foldlM_log_char
          (fun st m =>
            processMeasure ins tE avail runId trialId criteria d.inv d.it m st)
          (tupleBatched avail runId trialId criteria d.inv d.it)
          (tupleAddCalls tE avail runId trialId criteria d.inv d.it)
          (fun st m st' hm =>
            processMeasure_ok_char ins tE avail runId trialId criteria d.inv d.it m
              st st' hm)
          d.m st st' hd)
      dps ⟨0, [], [], [], s0⟩ st hfold
    cases hres : recordResidual ins st.batch st.s with
    | error e =>
      rw [hres] at h'
      exact absurd h' (by simp [Bind.bind, Except.bind])
    | ok p =>
      rw [hres] at h'
      rcases p with ⟨nr, sr⟩
      have : (st.recorded + nr, st.addCalls, st.batchedLog, sr)
          = ((n, calls, log, sF) : Nat × List (Nat × Nat × Nat × Int)
              × List MeasurementRow × σ) := by
        injection h' with h''
      obtain ⟨hcb, hca⟩ := hchar
      simp only [MeasLoopState.batchedLog] at hcb
      simp only [MeasLoopState.addCalls] at hca
      rw [Prod.mk.injEq, Prod.mk.injEq, Prod.mk.injEq] at this
      obtain ⟨-, hc, hl, -⟩ := this
      constructor
      · rw [← hl, hcb]
        simp
      · rw [← hc, hca]
        simp

theorem insertMeasurement_mem (t : List MeasurementRow) (row r : MeasurementRow)
    (h : r ∈ (insertMeasurement t row).2) : r ∈ t ∨ r = row := by
  unfold insertMeasurement at h
  split at h
  · exact .inl h
  · rcases List.mem_append.mp h with h1 | h2
    · exact .inl h1
    · exact .inr (List.mem_singleton.mp h2)

theorem insertMeasurement_len (t : List MeasurementRow) (row : MeasurementRow) :
    (insertMeasurement t row).1 + t.length = (insertMeasurement t row).2.length := by
  unfold insertMeasurement
  split
  · simp
  · simp only [List.length_append, List.length_cons, List.length_nil]
    omega

theorem insertMeasurement_mono (t : List MeasurementRow) (row r : MeasurementRow)
    (h : r ∈ t) : r ∈ (insertMeasurement t row).2 := by
  unfold insertMeasurement
  split
  · exact h
  · exact List.mem_append_left _ h

theorem insertMeasurements_foldl_shift (rows : List MeasurementRow) :
    ∀ (a : Nat) (t : List MeasurementRow),
      rows.foldl (fun p row =>
          (p.1 + (insertMeasurement p.2 row).1, (insertMeasurement p.2 row).2)) (a, t)
        = (a + (insertMeasurements t rows).1, (insertMeasurements t rows).2) := by
  induction rows with
  | nil => intro a t; simp [insertMeasurements]
  | cons row rest ih =>
    intro a t
    rw [List.foldl_cons]
    dsimp only
    rw [ih]
    conv_rhs => rw [insertMeasurements, List.foldl_cons]
    dsimp only
    rw [ih]
    dsimp only
    rw [Prod.mk.injEq]
    constructor
    · omega
    · rfl

theorem insertMeasurements_cons (t : List MeasurementRow) (row : MeasurementRow)
    (rest : List MeasurementRow) :
    insertMeasurements t (row :: rest)
      = ((insertMeasurement t row).1
            + (insertMeasurements (insertMeasurement t row).2 rest).1,
         (insertMeasurements (insertMeasurement t row).2 rest).2) := by
  unfold insertMeasurements
  rw [List.foldl_cons]
  dsimp only
  rw [insertMeasurements_foldl_shift]
  rw [Prod.mk.injEq]
  refine ⟨?_, rfl⟩
  have hdef : (List.foldl (fun p row =>
      (p.1 + (insertMeasurement p.2 row).1, (insertMeasurement p.2 row).2))
      (0, (insertMeasurement t row).2) rest).1
        = (insertMeasurements (insertMeasurement t row).2 rest).1 := rfl
  rw [hdef]
  omega

theorem insertMeasurements_append (t : List MeasurementRow)
    (l1 l2 : List MeasurementRow) :
    insertMeasurements t (l1 ++ l2)
      = ((insertMeasurements t l1).1
            + (insertMeasurements (insertMeasurements t l1).2 l2).1,
         (insertMeasurements (insertMeasurements t l1).2 l2).2) := by
  unfold insertMeasurements
  rw [List.foldl_append]
  have h := insertMeasurements_foldl_shift l1 0 t
  unfold insertMeasurements at h
  rw [h]
  simp only [Nat.zero_add]
  have h2 := insertMeasurements_foldl_shift l2
    (l1.foldl (fun p row =>
      let q := insertMeasurement p.2 row
      (p.1 + q.1, q.2)) (0, t)).1
    (l1.foldl (fun p row =>
      let q := insertMeasurement p.2 row
      (p.1 + q.1, q.2)) (0, t)).2
  unfold insertMeasurements at h2
  rw [← h2]

theorem insertMeasurements_mem (rows : List MeasurementRow) :
    ∀ (t : List MeasurementRow) (r : MeasurementRow),
      r ∈ (insertMeasurements t rows).2 → r ∈ t ∨ r ∈ rows := by
  induction rows with
  | nil => intro t r h; simp [insertMeasurements] at h; exact .inl h
  | cons row rest ih =>
    intro t r h
    rw [insertMeasurements_cons] at h
    dsimp only at h
    rcases ih (insertMeasurement t row).2 r h with h1 | h2
    · rcases insertMeasurement_mem t row r h1 with h3 | h4
      · exact .inl h3
      · exact .inr (h4 ▸ List.mem_cons_self _ _)
    · exact .inr (List.mem_cons_of_mem _ h2)

theorem insertMeasurements_mono (rows : List MeasurementRow) :
    ∀ (t : List MeasurementRow) (r : MeasurementRow),
      r ∈ t → r ∈ (insertMeasurements t rows).2 := by
  induction rows with
  | nil => intro t r h; simpa [insertMeasurements] using h
  | cons row rest ih =>
    intro t r h
    rw [insertMeasurements_cons]
    exact ih _ r (insertMeasurement_mono t row r h)

theorem insertMeasurements_len (rows : List MeasurementRow) :
    ∀ t : List MeasurementRow,
      (insertMeasurements t rows).1 + t.length = (insertMeasurements t rows).2.length := by
  induction rows with
  | nil => intro t; simp [insertMeasurements]
  | cons row rest ih =>
    intro t
    rw [insertMeasurements_cons]
    dsimp only
    have h1 := insertMeasurement_len t row
    have h2 := ih (insertMeasurement t row).2
    omega

theorem seqIns_one (t : List MeasurementRow) (row : MeasurementRow) :
    seqIns.one t row
      = (.ok (insertMeasurement t row).1, (insertMeasurement t row).2) := rfl

theorem seqIns_batched10 (t rows : List MeasurementRow) :
    seqIns.batched10 t rows
      = (.ok (insertMeasurements t rows).1, (insertMeasurements t rows).2) := rfl

theorem seqIns_batchedN (t rows : List MeasurementRow) :
    seqIns.batchedN t rows
      = (.ok (insertMeasurements t rows).1, (insertMeasurements t rows).2) := rfl

theorem recordMeasurementsFromBatch_seq (rows : List MeasurementRow) :
    ∀ t : List MeasurementRow,
      recordMeasurementsFromBatch seqIns rows t = .ok (insertMeasurements t rows) := by
  induction rows with
  | nil => intro t; simp [recordMeasurementsFromBatch, insertMeasurements]
  | cons row rest ih =>
    intro t
    unfold recordMeasurementsFromBatch
    rw [seqIns_one]
    dsimp only
    rw [ih]
    rw [insertMeasurements_cons]
    rfl

theorem recordResidual_seq (batch : List MeasurementRow) :
    ∀ t : List MeasurementRow,
      recordResidual seqIns batch t = .ok (insertMeasurements t batch) := by
  generalize hn : batch.length = n
  induction n using Nat.strong_induction_on generalizing batch with
  | _ n ih =>
    intro t
    rw [recordResidual]
    split
    · rename_i hlen
      simp only [seqIns_batched10]
      rw [ih (batch.drop 10).length
        (by rw [← hn]; simp only [List.length_drop]; omega) (batch.drop 10) rfl]
      have happ := insertMeasurements_append t (batch.take 10) (batch.drop 10)
      rw [List.take_append_drop] at happ
      rw [happ]
      rfl
    · exact recordMeasurementsFromBatch_seq batch t

theorem foldlM_inv {σ β : Type}
    (body : MeasLoopState σ → β → Except RmError (MeasLoopState σ))
    (P : MeasLoopState σ → Prop)
    (hbody : ∀ st b st', P st → body st b = .ok st' → P st') :
    ∀ (l : List β) (st st' : MeasLoopState σ),
      P st → l.foldlM body st = .ok st' → P st' := by
  intro l
  induction l with
  | nil =>
    intro st st' hP h
    rw [List.foldlM_nil] at h
    injection h with h
    subst h
    exact hP
  | cons b rest ih =>
    intro st st' hP h
    rw [List.foldlM_cons] at h
    cases hb : body st b with
    | error e => rw [hb] at h; exact absurd h (by simp [Bind.bind, Except.bind])
    | ok st1 =>
      rw [hb] at h
      exact ih st1 st' (hbody st b st1 hP hb) h

theorem processMeasure_seq_inv (tE : Bool) (avail : AvailMap) (runId trialId : Nat)
    (criteria : List (Nat × CriterionRow)) (dinv dit : Nat) (m : ApiMeasure)
    (tbl0 : List MeasurementRow) (st st' : MeasLoopState (List MeasurementRow))
    (hmem : ∀ r ∈ st.s, r ∈ tbl0 ∨ r ∈ st.batchedLog)
    (hbatch : ∀ r ∈ st.batch, r ∈ st.batchedLog)
    (hlen : st.recorded + tbl0.length = st.s.length)
    (hmono : ∀ r ∈ tbl0, r ∈ st.s)
    (h : processMeasure seqIns tE avail runId trialId criteria dinv dit m st
        = .ok st') :
    (∀ r ∈ st'.s, r ∈ tbl0 ∨ r ∈ st'.batchedLog)
      ∧ (∀ r ∈ st'.batch, r ∈ st'.batchedLog)
      ∧ st'.recorded + tbl0.length = st'.s.length
      ∧ (∀ r ∈ tbl0, r ∈ st'.s) := by
  unfold processMeasure at h
  cases hlk : lookupN criteria m.c with
  | none => rw [hlk] at h; exact absurd h (by simp)
  | some crit =>
    rw [hlk] at h
    dsimp only [] at h
    split at h
    · injection h with h
      subst h
      exact ⟨hmem, hbatch, hlen, hmono⟩
    · rename_i hskip
      split at h
      · rename_i hfull
        split at h
        · rename_i n s2 h2
          rw [seqIns_batchedN] at h2
          rw [Prod.mk.injEq] at h2
          obtain ⟨h2a, h2b⟩ := h2
          injection h2a with h2a
          subst h2b
          subst h2a
          injection h with h
          subst h
          dsimp only
          refine ⟨?_, by simp, ?_, ?_⟩
          · intro r hr
            rcases insertMeasurements_mem _ _ r hr with h3 | h4
            · rcases hmem r h3 with h5 | h6
              · exact .inl h5
              · exact .inr (List.mem_append_left _ h6)
            · rcases List.mem_append.mp h4 with h5 | h6
              · exact .inr (List.mem_append_left _ (hbatch r h5))
              · exact .inr (List.mem_append_right _ h6)
          · have h5 := insertMeasurements_len
              (st.batch ++ [⟨runId, trialId, dinv, dit, crit.id, m.v⟩]) st.s
            omega
          · intro r hr
            exact insertMeasurements_mono _ _ r (hmono r hr)
        · rename_i e s2 h2
          rw [seqIns_batchedN] at h2
          rw [Prod.mk.injEq] at h2
          exact absurd h2.1 (by simp)
      · injection h with h
        subst h
        dsimp only
        refine ⟨?_, ?_, hlen, hmono⟩
        · intro r hr
          rcases hmem r hr with h5 | h6
          · exact .inl h5
          · exact .inr (List.mem_append_left _ h6)
        · intro r hr
          rcases List.mem_append.mp hr with h5 | h6
          · exact List.mem_append_left _ (hbatch r h5)
          · exact List.mem_append_right _ h6

theorem recordMeasurements_seq_table (tE : Bool) (dps : List ApiDataPoint)
    (runId trialId : Nat) (criteria : List (Nat × CriterionRow)) (avail : AvailMap)
    (tbl tblF : List MeasurementRow) (n : Nat)
    (calls : List (Nat × Nat × Nat × Int)) (log : List MeasurementRow)
    (h : recordMeasurements seqIns tE dps runId trialId criteria avail tbl
        = .ok (n, calls, log, tblF)) :
    (∀ r ∈ tblF, r ∈ tbl ∨ r ∈ log)
      ∧ n + tbl.length = tblF.length
      ∧ (∀ r ∈ tbl, r ∈ tblF) := by
  unfold recordMeasurements at h
  cases hfold : dps.foldlM
      (fun st d => d.m.foldlM
        (fun st m =>
          processMeasure seqIns tE avail runId trialId criteria d.inv d.it m st) st)
      (⟨0, [], [], [], tbl⟩ : MeasLoopState (List MeasurementRow)) with
  | error e =>
    rw [hfold] at h
    exact absurd h (by simp [Bind.bind, Except.bind])
  | ok st =>
    rw [hfold] at h
    have h' : (recordResidual seqIns st.batch st.s).bind
        (fun p => pure (st.recorded + p.1, st.addCalls, st.batchedLog, p.2))
          = Except.ok (n, calls, log, tblF) := h
    rw [recordResidual_seq] at h'
    have h'' : (Except.ok (st.recorded + (insertMeasurements st.s st.batch).1,
        st.addCalls, st.batchedLog, (insertMeasurements st.s st.batch).2)
          : Except RmError (Nat × List (Nat × Nat × Nat × Int)
              × List MeasurementRow × List MeasurementRow))
        = Except.ok (n, calls, log, tblF) := h'
    injection h'' with h''
    rw [Prod.mk.injEq, Prod.mk.injEq, Prod.mk.injEq] at h''
    obtain ⟨hn, -, hl, hF⟩ := h''
    have hinv := foldlM_inv
      (fun st d => d.m.foldlM
        (fun st m =>
          processMeasure seqIns tE avail runId trialId criteria d.inv d.it m st) st)
      (fun st => (∀ r ∈ st.s, r ∈ tbl ∨ r ∈ st.batchedLog)
        ∧ (∀ r ∈ st.batch, r ∈ st.batchedLog)
        ∧ st.recorded + tbl.length = st.s.length
        ∧ (∀ r ∈ tbl, r ∈ st.s))
      (fun st d st' hP hd =>
        foldlM_inv
          (fun st m =>
            processMeasure seqIns tE avail runId trialId criteria d.inv d.it m st)
          (fun st => (∀ r ∈ st.s, r ∈ tbl ∨ r ∈ st.batchedLog)
            ∧ (∀ r ∈ st.batch, r ∈ st.batchedLog)
            ∧ st.recorded + tbl.length = st.s.length
            ∧ (∀ r ∈ tbl, r ∈ st.s))
          (fun st m st' hP hm =>
            processMeasure_seq_inv tE avail runId trialId criteria d.inv d.it m tbl
              st st' hP.1 hP.2.1 hP.2.2.1 hP.2.2.2 hm)
          d.m st st' hP hd)
      dps ⟨0, [], [], [], tbl⟩ st
      ⟨fun r hr => .inl hr, by simp, by simp, fun r hr => hr⟩ hfold
    obtain ⟨hmem, hbatch, hlen, hmono⟩ := hinv
    refine ⟨?_, ?_, ?_⟩
    · intro r hr
      rw [← hF] at hr
      rcases insertMeasurements_mem st.batch st.s r hr with h3 | h4
      · rcases hmem r h3 with h5 | h6
        · exact .inl h5
        · exact .inr (hl ▸ h6)
      · exact .inr (hl ▸ hbatch r h4)
    · have h5 := insertMeasurements_len st.batch st.s
      rw [hF] at h5
      omega
    · intro r hr
      rw [← hF]
      exact insertMeasurements_mono st.batch st.s r (hmono r hr)

/-- C4: a measurement tuple is skipped — neither appended to a batch nor
inserted nor counted — if and only if the available-measurements map holds
an entry for its runId, criterionId and invocation whose stored maximum
iteration is at least the tuple's iteration; in every other case (including
runId, criterionId or invocation absent from the map) the tuple is appended
to the batch.  Conjunct 1: `alreadyRecorded` is true exactly when such an
entry exists.  Conjunct 2: in a successful `recordMeasurements` run, the
batched tuples are exactly the non-skipped tuples in payload order, every
row of the final table is an initial row or a batched tuple (skipped tuples
are never inserted), and the reported count is the table growth (skipped
tuples are never counted). -/
theorem alreadyRecorded_skip_iff :
    (∀ (avail : AvailMap) (runId trialId inv ite critId : Nat) (v : Int),
        alreadyRecorded avail runId trialId inv ite critId v = true
          ↔ ∃ maxIte, lookup3 avail runId critId inv = some maxIte ∧ ite ≤ maxIte)
  ∧ (∀ (tE : Bool) (dps : List ApiDataPoint) (runId trialId : Nat)
        (criteria : List (Nat × CriterionRow)) (avail : AvailMap)
        (tbl tblF : List MeasurementRow) (n : Nat)
        (calls : List (Nat × Nat × Nat × Int)) (log : List MeasurementRow),
        recordMeasurements seqIns tE dps runId trialId criteria avail tbl
            = .ok (n, calls, log, tblF) →
        log = dps.flatMap (fun d =>
            d.m.flatMap (tupleBatched avail runId trialId criteria d.inv d.it))
          ∧ (∀ r ∈ tblF, r ∈ tbl ∨ r ∈ log)
          ∧ n + tbl.length = tblF.length) := by
  constructor
  · exact alreadyRecorded_iff
  · intro tE dps runId trialId criteria avail tbl tblF n calls log h
    have hc := recordMeasurements_char seqIns tE dps runId trialId criteria avail tbl
      n calls log tblF h
    have ht := recordMeasurements_seq_table tE dps runId trialId criteria avail tbl
      tblF n calls log h
    exact ⟨hc.1, ht.1, ht.2.1⟩

set_option synthInstance.maxSize 512 in
/-- Shared concrete evaluation: a one-tuple payload under the sequential
insert semantics records one measurement. -/
theorem recordMeasurementsSmallEval :
    recordMeasurements seqIns false [⟨1, 2, [⟨0, 5⟩]⟩] 7 9
        [(0, ⟨3, "total", "ms"⟩)] [] []
      = .ok (1, [], [⟨7, 9, 1, 2, 3, 5⟩], [⟨7, 9, 1, 2, 3, 5⟩]) := by
  have hfold : ([⟨1, 2, [⟨0, 5⟩]⟩] : List ApiDataPoint).foldlM
      (fun st d => d.m.foldlM
        (fun st m =>
          processMeasure seqIns false [] 7 9 [(0, ⟨3, "total", "ms"⟩)] d.inv d.it m st) st)
      (⟨0, [], [], [], []⟩ : MeasLoopState (List MeasurementRow))
      = .ok ⟨0, [⟨7, 9, 1, 2, 3, 5⟩], [], [⟨7, 9, 1, 2, 3, 5⟩], []⟩ := by
    decide
  rw [recordMeasurements, hfold]
  show (recordResidual seqIns [⟨7, 9, 1, 2, 3, 5⟩] []).bind _ = _
  rw [recordResidual_seq]
  decide

/-- Witness for C4 at the one-tuple payload: the tuple is not skipped (the
available-measurements map is empty), so it is batched, inserted and
counted. -/
theorem alreadyRecorded_skip_iff_witness :
    ([(⟨7, 9, 1, 2, 3, 5⟩ : MeasurementRow)]
          = ([(⟨1, 2, [⟨0, 5⟩]⟩ : ApiDataPoint)]).flatMap (fun d =>
              d.m.flatMap (tupleBatched [] 7 9 [(0, ⟨3, "total", "ms"⟩)] d.inv d.it)))
      ∧ (∀ r ∈ ([⟨7, 9, 1, 2, 3, 5⟩] : List MeasurementRow),
          r ∈ ([] : List MeasurementRow)
            ∨ r ∈ ([⟨7, 9, 1, 2, 3, 5⟩] : List MeasurementRow))
      ∧ 1 + ([] : List MeasurementRow).length
          = ([⟨7, 9, 1, 2, 3, 5⟩] : List MeasurementRow).length :=
  alreadyRecorded_skip_iff.2 false [⟨1, 2, [⟨0, 5⟩]⟩] 7 9
    [(0, ⟨3, "total", "ms"⟩)] [] [] [⟨7, 9, 1, 2, 3, 5⟩] 1 [] [⟨7, 9, 1, 2, 3, 5⟩]
    recordMeasurementsSmallEval

/-- C5: in a successful `recordMeasurements` run, `updater.addValue(runId,
trialId, criterionId, value)` is logged exactly once for each tuple that
passes the dedup check, whose criterion name equals the distinguished total
criterion, and while the timeline updater is enabled — in payload order —
and no call is logged for any other tuple; with the updater disabled no
call is ever logged. -/
theorem addValue_calls_exact :
    ∀ (tE : Bool) (dps : List ApiDataPoint) (runId trialId : Nat)
      (criteria : List (Nat × CriterionRow)) (avail : AvailMap)
      (tbl tblF : List MeasurementRow) (n : Nat)
      (calls : List (Nat × Nat × Nat × Int)) (log : List MeasurementRow),
      recordMeasurements seqIns tE dps runId trialId criteria avail tbl
          = .ok (n, calls, log, tblF) →
      calls = dps.flatMap (fun d =>
          d.m.flatMap (tupleAddCalls tE avail runId trialId criteria d.inv d.it))
        ∧ (tE = false → calls = []) := by
  intro tE dps runId trialId criteria avail tbl tblF n calls log h
  have hc := (recordMeasurements_char seqIns tE dps runId trialId criteria avail tbl
    n calls log tblF h).2
  refine ⟨hc, ?_⟩
  intro htE
  subst htE
  rw [hc]
  refine List.flatMap_eq_nil_iff.mpr ?_
  intro d _
  refine List.flatMap_eq_nil_iff.mpr ?_
  intro m _
  unfold tupleAddCalls
  cases lookupN criteria m.c with
  | none => rfl
  | some crit => simp

/-- Witness for C5 at the one-tuple payload with the updater disabled: no
addValue call is logged. -/
theorem addValue_calls_exact_witness :
    (([] : List (Nat × Nat × Nat × Int))
          = ([(⟨1, 2, [⟨0, 5⟩]⟩ : ApiDataPoint)]).flatMap (fun d =>
              d.m.flatMap (tupleAddCalls false [] 7 9 [(0, ⟨3, "total", "ms"⟩)] d.inv d.it)))
      ∧ (false = false → ([] : List (Nat × Nat × Nat × Int)) = []) :=
  addValue_calls_exact false [⟨1, 2, [⟨0, 5⟩]⟩] 7 9 [(0, ⟨3, "total", "ms"⟩)] []
    [] [⟨7, 9, 1, 2, 3, 5⟩] 1 [] [⟨7, 9, 1, 2, 3, 5⟩] recordMeasurementsSmallEval

theorem foldl_append_col {σ β α : Type} (step : σ → β → σ) (f : σ → List α) (g : β → α)
    (hstep : ∀ st row, f (step st row) = f st ++ [g row]) :
    ∀ (rows : List β) (st : σ), f (rows.foldl step st) = f st ++ rows.map g := by
  intro rows
  induction rows with
  | nil => intro st; simp
  | cons r rest ih =>
    intro st
    rw [List.foldl_cons, ih, hstep]
    simp

theorem foldl_const_col {σ β α : Type} (step : σ → β → σ) (f : σ → List α)
    (hstep : ∀ st row, f (step st row) = f st) :
    ∀ (rows : List β) (st : σ), f (rows.foldl step st) = f st := by
  intro rows
  induction rows with
  | nil => intro st; rfl
  | cons r rest ih =>
    intro st
    rw [List.foldl_cons, ih, hstep]

theorem convertRowStep_some (b : String) (st : ConvState) (row : TimelineQueryRow) :
    convertRowStep (some b) st row =
      { c0 := st.c0 ++ [some row.starttime]
        c1 := st.c1 ++ [if row.branch = b then some row.bci95low else none]
        c2 := st.c2 ++ [if row.branch = b then some row.median else none]
        c3 := st.c3 ++ [if row.branch = b then some row.bci95up else none]
        c4 := st.c4 ++ [if row.branch = b then none else some row.bci95low]
        c5 := st.c5 ++ [if row.branch = b then none else some row.median]
        c6 := st.c6 ++ [if row.branch = b then none else some row.bci95up]
        baseTs := if row.branch = b ∧ row.iscurrent then some row.starttime else st.baseTs
        changeTs := if ¬ row.branch = b ∧ row.iscurrent then some row.starttime else st.changeTs
        sourceIds := st.sourceIds ++ [row.sourceid] } := by
  by_cases hbr : row.branch = b <;> by_cases hc : row.iscurrent <;>
    simp [convertRowStep, hbr, hc]

theorem convertRowStep_none (st : ConvState) (row : TimelineQueryRow) :
    convertRowStep none st row =
      { c0 := st.c0 ++ [some row.starttime]
        c1 := st.c1 ++ [some row.bci95low]
        c2 := st.c2 ++ [some row.median]
        c3 := st.c3 ++ [some row.bci95up]
        c4 := st.c4
        c5 := st.c5
        c6 := st.c6
        baseTs := st.baseTs
        changeTs := st.changeTs
        sourceIds := st.sourceIds ++ [row.sourceid] } := by
  simp [convertRowStep]

/-- C9: for every row list, the `PlotData` produced by
`convertToTimelineResponse` has exactly 7 columns when a base branch name is
supplied (timestamps, baseline bci-low/median/bci-high, change
bci-low/median/bci-high) and exactly 4 columns when none is; every column
has one entry per input row, and for each row the three columns of the
non-matching branch hold `null` at that row's position. -/
theorem convertToTimelineResponse_shape (rows : List TimelineQueryRow)
    (b : String) (c : Option String) :
    ((convertToTimelineResponse rows (some b) c).data
        = [rows.map (fun r => some r.starttime),
           rows.map (fun r => if r.branch = b then some r.bci95low else none),
           rows.map (fun r => if r.branch = b then some r.median else none),
           rows.map (fun r => if r.branch = b then some r.bci95up else none),
           rows.map (fun r => if r.branch = b then none else some r.bci95low),
           rows.map (fun r => if r.branch = b then none else some r.median),
           rows.map (fun r => if r.branch = b then none else some r.bci95up)]
      ∧ (convertToTimelineResponse rows (some b) c).data.length = 7
      ∧ ∀ col ∈ (convertToTimelineResponse rows (some b) c).data,
          col.length = rows.length)
  ∧ ((convertToTimelineResponse rows none c).data
        = [rows.map (fun r => some r.starttime),
           rows.map (fun r => some r.bci95low),
           rows.map (fun r => some r.median),
           rows.map (fun r => some r.bci95up)]
      ∧ (convertToTimelineResponse rows none c).data.length = 4
      ∧ ∀ col ∈ (convertToTimelineResponse rows none c).data,
          col.length = rows.length) := by
  have e0 := foldl_append_col (convertRowStep (some b)) ConvState.c0
    (fun r => some r.starttime) (fun st row => by rw [convertRowStep_some]) rows emptyConvState
  have e1 := foldl_append_col (convertRowStep (some b)) ConvState.c1
    (fun r => if r.branch = b then some r.bci95low else none)
    (fun st row => by rw [convertRowStep_some]) rows emptyConvState
  have e2 := foldl_append_col (convertRowStep (some b)) ConvState.c2
    (fun r => if r.branch = b then some r.median else none)
    (fun st row => by rw [convertRowStep_some]) rows emptyConvState
  have e3 := foldl_append_col (convertRowStep (some b)) ConvState.c3
    (fun r => if r.branch = b then some r.bci95up else none)
    (fun st row => by rw [convertRowStep_some]) rows emptyConvState
  have e4 := foldl_append_col (convertRowStep (some b)) ConvState.c4
    (fun r => if r.branch = b then none else some r.bci95low)
    (fun st row => by rw [convertRowStep_some]) rows emptyConvState
  have e5 := foldl_append_col (convertRowStep (some b)) ConvState.c5
    (fun r => if r.branch = b then none else some r.median)
    (fun st row => by rw [convertRowStep_some]) rows emptyConvState
  have e6 := foldl_append_col (convertRowStep (some b)) ConvState.c6
    (fun r => if r.branch = b then none else some r.bci95up)
    (fun st row => by rw [convertRowStep_some]) rows emptyConvState
  have f0 := foldl_append_col (convertRowStep none) ConvState.c0
    (fun r => some r.starttime) (fun st row => by rw [convertRowStep_none]) rows emptyConvState
  have f1 := foldl_append_col (convertRowStep none) ConvState.c1
    (fun r => some r.bci95low) (fun st row => by rw [convertRowStep_none]) rows emptyConvState
  have f2 := foldl_append_col (convertRowStep none) ConvState.c2
    (fun r => some r.median) (fun st row => by rw [convertRowStep_none]) rows emptyConvState
  have f3 := foldl_append_col (convertRowStep none) ConvState.c3
    (fun r => some r.bci95up) (fun st row => by rw [convertRowStep_none]) rows emptyConvState
  have h7 : (convertToTimelineResponse rows (some b) c).data
      = [rows.map (fun r => some r.starttime),
         rows.map (fun r => if r.branch = b then some r.bci95low else none),
         rows.map (fun r => if r.branch = b then some r.median else none),
         rows.map (fun r => if r.branch = b then some r.bci95up else none),
         rows.map (fun r => if r.branch = b then none else some r.bci95low),
         rows.map (fun r => if r.branch = b then none else some r.median),
         rows.map (fun r => if r.branch = b then none else some r.bci95up)] := by
    simp only [convertToTimelineResponse]
    simp only [e0, e1, e2, e3, e4, e5, e6]
    simp [emptyConvState]
  have h4 : (convertToTimelineResponse rows none c).data
      = [rows.map (fun r => some r.starttime),
         rows.map (fun r => some r.bci95low),
         rows.map (fun r => some r.median),
         rows.map (fun r => some r.bci95up)] := by
    simp only [convertToTimelineResponse]
    simp only [f0, f1, f2, f3]
    simp [emptyConvState]
  refine ⟨⟨h7, by rw [h7]; rfl, ?_⟩, ⟨h4, by rw [h4]; rfl, ?_⟩⟩
  · intro col hcol
    rw [h7] at hcol
    simp only [List.mem_cons, List.not_mem_nil, or_false] at hcol
    rcases hcol with rfl | rfl | rfl | rfl | rfl | rfl | rfl <;> simp
  · intro col hcol
    rw [h4] at hcol
    simp only [List.mem_cons, List.not_mem_nil, or_false] at hcol
    rcases hcol with rfl | rfl | rfl | rfl <;> simp

/-- Witness for C9 at a concrete one-row input. -/
theorem convertToTimelineResponse_shape_witness :
    (convertToTimelineResponse [⟨5, "main", true, 3, 1, 0, 2⟩]
        (some "main") (some "feat")).data.length = 7 :=
  (convertToTimelineResponse_shape [⟨5, "main", true, 3, 1, 0, 2⟩]
    "main" (some "feat")).1.2.1

/-- C2 counterexample: with an empty cache, an empty first fetch, an insert
failing with SQLSTATE 57P01 (not a unique violation) and a re-fetch that
finds one row, `recordCached` swallows the error and returns the row, so
the claim's "any error from the insert other than a unique violation is
propagated to the caller" is false: the catch block never inspects the
error code. -/
theorem recordCached_swallows_foreign_error_cex :
    recordCached (α := Nat) [] "k" [] (.error ⟨"57P01"⟩) [42]
        = .ok (42, [("k", 42)])
      ∧ isUniqueViolationError ⟨"57P01"⟩ = false :=
  ⟨rfl, rfl⟩

/-- C2 (amended): `recordCached` returns the cached row when the key is
cached; otherwise, if the fetch returns exactly one row it caches and
returns it; otherwise it runs the insert: when the insert succeeds that row
is cached and returned, and on ANY insert error — unique violation or not —
the fetch is re-run; when the re-fetch yields exactly one row that row is
cached and returned, and the original insert error is propagated exactly
when the re-fetch yields no rows. -/
theorem recordCached_spec (α : Type) (cache : List (String × α)) (key : String)
    (fetch1 : List α) (insertRes : Except DbError (List α)) (fetch2 : List α) :
    (∀ row, lookupA cache key = some row →
        recordCached cache key fetch1 insertRes fetch2 = .ok (row, cache))
  ∧ (∀ row, lookupA cache key = none → fetch1 = [row] →
        recordCached cache key fetch1 insertRes fetch2 = .ok (row, (key, row) :: cache))
  ∧ (∀ row, lookupA cache key = none → fetch1 = [] → insertRes = .ok [row] →
        recordCached cache key fetch1 insertRes fetch2 = .ok (row, (key, row) :: cache))
  ∧ (∀ e, lookupA cache key = none → fetch1 = [] → insertRes = .error e → fetch2 = [] →
        recordCached cache key fetch1 insertRes fetch2 = .error (.db e))
  ∧ (∀ e row, lookupA cache key = none → fetch1 = [] → insertRes = .error e →
        fetch2 = [row] →
        recordCached cache key fetch1 insertRes fetch2 = .ok (row, (key, row) :: cache)) := by
  refine ⟨?_, ?_, ?_, ?_, ?_⟩
  · intro row h
    simp [recordCached, h]
  · intro row h h1
    subst h1
    simp [recordCached, h]
  · intro row h h1 h2
    subst h1
    subst h2
    simp [recordCached, h]
  · intro e h h1 h2 h3
    subst h1
    subst h2
    subst h3
    simp [recordCached, h]
  · intro e row h h1 h2 h3
    subst h1
    subst h2
    subst h3
    simp [recordCached, h]

/-- Witness for C2 at a concrete input: a cache hit on key `k`. -/
theorem recordCached_spec_witness :
    recordCached (α := Nat) [("k", 7)] "k" [] (.ok []) [] = .ok (7, [("k", 7)]) :=
  (recordCached_spec Nat [("k", 7)] "k" [] (.ok []) []).1 7 rfl

/-- C8 counterexample: with the experiment present and `endTime` present
but equal to the empty string, `reportCompletion` throws — the JS check
`!data.endTime` is true for `""` — although neither "no experiment exists"
nor "endTime is missing" holds, so the claim's "throws if and only if"
is false as stated. -/
theorem reportCompletion_emptyEndTime_cex :
    reportCompletion c8Db ⟨"p", "e", some ""⟩
        = .error "Could not record completion without endTime"
      ∧ getExperimentByNames c8Db "p" "e" = some ⟨1, "e", 1, ""⟩
      ∧ some "" ≠ (none : Option String) :=
  ⟨rfl, rfl, by decide⟩

set_option maxHeartbeats 1000000 in
/-- C8 (amended): `reportCompletion(data)` throws if and only if no
experiment exists for (projectName, experimentName) or `data.endTime` is
missing or the empty string (JS falsiness); otherwise it sets `endTime` to
`data.endTime` on exactly the Trial rows of that experiment whose endTime
is NULL — trials that already have an endTime, trials of other experiments,
and all other tables are unchanged — and returns the experiment.  The
hypothesis says the experiment cache agrees with the store on the queried
key. -/
theorem reportCompletion_spec (db : DbState) (data : BenchmarkCompletion)
    (hcc : ∀ row,
        lookupA db.expCache (expCacheKey data.projectName data.experimentName)
          = some row →
        tableExperiment db data.projectName data.experimentName = some row) :
    ((∃ e, reportCompletion db data = .error e)
        ↔ tableExperiment db data.projectName data.experimentName = none
          ∨ data.endTime = none ∨ data.endTime = some "")
  ∧ (∀ exp db', reportCompletion db data = .ok (exp, db') →
      tableExperiment db data.projectName data.experimentName = some exp
        ∧ db'.trials.length = db.trials.length
        ∧ (∀ (i : Nat) (t : TrialRow), db.trials[i]? = some t →
            db'.trials[i]? = some (if t.expid = exp.id ∧ t.endtime = none
              then { t with endtime := data.endTime } else t))
        ∧ db'.exps = db.exps ∧ db'.projects = db.projects
        ∧ db'.measurements = db.measurements ∧ db'.profiles = db.profiles) := by
  have hget : getExperimentByNames db data.projectName data.experimentName
      = tableExperiment db data.projectName data.experimentName := by
    unfold getExperimentByNames
    cases hc : lookupA db.expCache (expCacheKey data.projectName data.experimentName) with
    | some row => exact (hcc row hc).symm
    | none => rfl
  cases ht : tableExperiment db data.projectName data.experimentName with
  | none =>
    have herr : reportCompletion db data = .error
        ("Could not record completion, no experiment found for "
          ++ data.projectName ++ " " ++ data.experimentName) := by
      unfold reportCompletion
      rw [hget, ht]
    constructor
    · constructor
      · intro _; exact .inl rfl
      · intro _; exact ⟨_, herr⟩
    · intro exp db' hok
      rw [herr] at hok
      exact absurd hok (by simp)
  | some exp0 =>
    cases het : data.endTime with
    | none =>
      have herr : reportCompletion db data
          = .error "Could not record completion without endTime" := by
        unfold reportCompletion
        rw [hget, ht, het]
      constructor
      · constructor
        · intro _; exact .inr (.inl rfl)
        · intro _; exact ⟨_, herr⟩
      · intro exp db' hok
        rw [herr] at hok
        exact absurd hok (by simp)
    | some et =>
      by_cases hempty : et = ""
      · subst hempty
        have herr : reportCompletion db data
            = .error "Could not record completion without endTime" := by
          unfold reportCompletion
          rw [hget, ht, het]
          simp
        constructor
        · constructor
          · intro _; exact .inr (.inr rfl)
          · intro _; exact ⟨_, herr⟩
        · intro exp db' hok
          rw [herr] at hok
          exact absurd hok (by simp)
      · have hok : reportCompletion db data = .ok (exp0,
            { db with trials := recordExperimentCompletion db.trials exp0.id et }) := by
          unfold reportCompletion
          rw [hget, ht, het]
          simp [hempty]
        constructor
        · constructor
          · intro ⟨e, he⟩
            rw [hok] at he
            exact absurd he (by simp)
          · intro hcases
            rcases hcases with h1 | h2 | h3
            · exact absurd h1 (by simp)
            · exact absurd h2 (by simp)
            · injection h3 with h3
              exact (hempty h3).elim
        · intro exp db' h
          rw [hok] at h
          injection h with h
          rw [Prod.mk.injEq] at h
          obtain ⟨hexp, hdb⟩ := h
          subst hexp
          subst hdb
          refine ⟨rfl, ?_, ?_, rfl, rfl, rfl, rfl⟩
          · exact List.length_map _ _
          · intro i t hti
            show (List.map _ db.trials)[i]? = _
            rw [List.getElem?_map, hti]
            dsimp only [Option.map_some']
            congr 1
            by_cases h1 : t.expid = exp0.id
            · by_cases h2 : t.endtime = none
              · simp [h1, h2]
              · simp [h1, h2]
            · simp [h1]

/-- Witness for C8 at a concrete store: one project, one experiment, a
well-formed completion payload. -/
theorem reportCompletion_spec_witness :
    (∃ e, reportCompletion c8Db ⟨"p", "e", some "t1"⟩ = .error e)
      ↔ tableExperiment c8Db "p" "e" = none
        ∨ (⟨"p", "e", some "t1"⟩ : BenchmarkCompletion).endTime = none
        ∨ (⟨"p", "e", some "t1"⟩ : BenchmarkCompletion).endTime = some "" :=
  (reportCompletion_spec c8Db ⟨"p", "e", some "t1"⟩
    (fun row h => by simp [c8Db, emptyDb, lookupA] at h)).1

theorem scheduleStep_valid_false (s : TimedCacheValidity) (h : s.valid = false) :
    s.scheduleStep.valid = false := by
  unfold TimedCacheValidity.scheduleStep
  by_cases h1 : s.scheduledInvalidation = true
  · simp [h1, h]
  · by_cases h2 : s.invalidationDelay = 0 <;> simp [h1, h2, h]

theorem invalidateAndNew_fst (s : TimedCacheValidity) :
    s.invalidateAndNew.1 = s.scheduleStep := by
  unfold TimedCacheValidity.invalidateAndNew
  by_cases h : s.scheduleStep.valid = true <;> simp [h]

/-- C6: a freshly constructed `TimedCacheValidity` token is valid; the first
`invalidateAndNew` call schedules exactly one invalidation — immediately
when the delay is 0, via exactly one new one-shot timer otherwise — and
later calls never schedule another (the state of `this` is then left
untouched by the scheduling step); each call returns `this` while the token
is still valid after the scheduling step, and a freshly constructed valid
token once it is invalid; and once `isValid()` is false the token never
becomes valid again under any further sequence of calls and timer firings. -/
theorem timedCacheValidity_spec :
    (∀ d, (TimedCacheValidity.create d).isValid = true)
  ∧ (∀ s : TimedCacheValidity, s.scheduledInvalidation = false →
      (s.invalidateAndNew.1.scheduledInvalidation = true
        ∧ (s.invalidationDelay = 0 →
            s.invalidateAndNew.1.valid = false
              ∧ s.invalidateAndNew.1.timersStarted = s.timersStarted)
        ∧ (s.invalidationDelay ≠ 0 →
            s.invalidateAndNew.1.timersStarted = s.timersStarted + 1
              ∧ s.invalidateAndNew.1.valid = s.valid)))
  ∧ (∀ s : TimedCacheValidity, s.scheduledInvalidation = true →
      s.invalidateAndNew.1 = s)
  ∧ (∀ s : TimedCacheValidity,
      (s.scheduleStep.valid = true → s.invalidateAndNew = (s.scheduleStep, none))
        ∧ (s.scheduleStep.valid = false →
            s.invalidateAndNew
                = (s.scheduleStep, some (TimedCacheValidity.create s.invalidationDelay))
              ∧ (TimedCacheValidity.create s.invalidationDelay).isValid = true))
  ∧ (∀ (s : TimedCacheValidity) (l : List TCVEvent), s.valid = false →
      (applyTCVEvents s l).valid = false) := by
  refine ⟨fun d => rfl, ?_, ?_, ?_, ?_⟩
  · intro s hs
    simp only [invalidateAndNew_fst]
    unfold TimedCacheValidity.scheduleStep
    by_cases h2 : s.invalidationDelay = 0 <;> simp [hs, h2]
  · intro s hs
    rw [invalidateAndNew_fst]
    unfold TimedCacheValidity.scheduleStep
    simp [hs]
  · intro s
    constructor
    · intro hv
      unfold TimedCacheValidity.invalidateAndNew
      simp [hv]
    · intro hv
      refine ⟨?_, rfl⟩
      unfold TimedCacheValidity.invalidateAndNew
      simp [hv]
  · intro s l
    induction l generalizing s with
    | nil => intro h; exact h
    | cons e rest ih =>
      intro h
      show (applyTCVEvents (e.apply s) rest).valid = false
      apply ih
      cases e with
      | invalidate =>
        show s.invalidateAndNew.1.valid = false
        rw [invalidateAndNew_fst]
        exact scheduleStep_valid_false s h
      | fire => rfl

/-- Witness for C6: the freshly constructed token with delay 7 is valid. -/
theorem timedCacheValidity_spec_witness :
    (TimedCacheValidity.create 7).isValid = true :=
  timedCacheValidity_spec.1 7

/-- C7 counterexample: on the message `Signed-off-by: a\nhello` (containing a
literal backslash-n, no real newline), the code's filter — which resolves
literal newlines BEFORE stripping — yields `hello`, while the operation
order stated by the claim (strip the `Signed-off-by:` match first, then
resolve literal newlines, then trim) consumes the whole message with the
regex match and yields the empty string. -/
theorem filterCommitMessage_order_cex :
    filterCommitMessage "Signed-off-by: a\\nhello" = "hello"
      ∧ filterCommitMessageClaimOrder "Signed-off-by: a\\nhello" = ""
      ∧ filterCommitMessage "Signed-off-by: a\\nhello"
          ≠ filterCommitMessageClaimOrder "Signed-off-by: a\\nhello" :=
  ⟨by decide, by decide, by decide⟩

/-- C7 (amended): the commit-message filter first replaces each literal
two-character backslash-n sequence with a real newline, THEN removes from
each line of the result the segment matching `Signed-off-by:.*` (from the
marker to the end of that line), and finally trims leading and trailing
whitespace from the result. -/
theorem filterCommitMessage_amended (msg : String) :
    filterCommitMessage msg
      = ⟨trimChars (joinNl ((splitNl (replaceLitNl msg.data)).map stripLine))⟩ := by
  unfold filterCommitMessage
  rw [stripSignedOff_eq_lines]

/-- Witness for C10 at the concrete batch shape of the source: 50 tuples of 6
parameters each. -/
theorem generateBatchInsert_spec_witness :
    generateBatchInsert 50 6
        = joinSep ",\n" ((List.range 50).map (batchInsertGroupSpec 6))
      ∧ (List.range 50).flatMap (fun i => List.range' (i * 6 + 1) 6) = List.range' 1 300 :=
  ⟨(generateBatchInsert_spec 50 6 (by decide) (by decide)).1,
   (generateBatchInsert_spec 50 6 (by decide) (by decide)).2.1⟩

theorem internRow_hit {α : Type} (c : List (String × α)) (t : List α) (n : Nat)
    (key : String) (km : α → Bool) (mk : Nat → α) (r : α)
    (h : lookupA c key = some r) : internRow c t n key km mk = (r, c, t, n) := by
  unfold internRow
  rw [h]

theorem internRow_cachedKey {α : Type} (c : List (String × α)) (t : List α)
    (n : Nat) (key : String) (km : α → Bool) (mk : Nat → α) :
    lookupA (internRow c t n key km mk).2.1 key
      = some (internRow c t n key km mk).1 := by
  unfold internRow
  cases h : lookupA c key with
  | some r => exact h
  | none =>
    cases hf : t.find? km with
    | some r => simp [lookupA]
    | none => simp [lookupA]

theorem internRow_preserves {α : Type} (c : List (String × α)) (t : List α)
    (n : Nat) (key : String) (km : α → Bool) (mk : Nat → α) (k : String) (r : α)
    (h : lookupA c k = some r) :
    lookupA (internRow c t n key km mk).2.1 k = some r := by
  unfold internRow
  cases h0 : lookupA c key with
  | some r' => exact h
  | none =>
    have hne : key ≠ k := by
      intro he
      rw [he] at h0
      rw [h0] at h
      exact Option.noConfusion h
    cases hf : t.find? km with
    | some r' => simp only [lookupA, if_neg hne]; exact h
    | none => simp only [lookupA, if_neg hne]; exact h

theorem lookupN_setN_self {α : Type} (m : List (Nat × α)) (k : Nat) (v : α) :
    lookupN (setN m k v) k = some v := by
  induction m with
  | nil => simp [setN, lookupN]
  | cons p rest ih =>
    rcases p with ⟨k', v'⟩
    by_cases h : k' = k
    · subst h
      simp [setN, lookupN]
    · simp [setN, lookupN, h, ih]

theorem lookupN_setN_ne {α : Type} (m : List (Nat × α)) (k k' : Nat) (v : α)
    (h : k' ≠ k) : lookupN (setN m k' v) k = lookupN m k := by
  induction m with
  | nil => simp [setN, lookupN, h]
  | cons p rest ih =>
    rcases p with ⟨k0, v0⟩
    by_cases h0 : k0 = k'
    · subst h0
      simp [setN, lookupN, h]
    · simp [setN, lookupN, h0, ih]

theorem foldl_max_init_le (l : List Nat) : ∀ b : Nat, b ≤ l.foldl max b := by
  induction l with
  | nil => intro b; simp
  | cons x xs ih =>
    intro b
    rw [List.foldl_cons]
    exact le_trans (le_max_left b x) (ih (max b x))

theorem le_foldl_max (l : List Nat) : ∀ (b a : Nat), a ∈ l → a ≤ l.foldl max b := by
  induction l with
  | nil => intro b a h; cases h
  | cons x xs ih =>
    intro b a h
    rw [List.foldl_cons]
    rcases List.mem_cons.mp h with h1 | h2
    · subst h1
      exact le_trans (le_max_right b a) (foldl_max_init_le xs (max b a))
    · exact ih (max b x) a h2

theorem foldl_max_le_exists (l : List Nat) :
    ∀ (b j : Nat), j ≤ l.foldl max b → j ≤ b ∨ ∃ a ∈ l, j ≤ a := by
  induction l with
  | nil => intro b j h; exact .inl h
  | cons x xs ih =>
    intro b j h
    rw [List.foldl_cons] at h
    rcases ih (max b x) j h with h1 | ⟨a, ha, h2⟩
    · rcases le_max_iff.mp h1 with h2 | h3
      · exact .inl h2
      · exact .inr ⟨x, List.mem_cons_self x xs, h3⟩
    · exact .inr ⟨a, List.mem_cons_of_mem x ha, h2⟩

theorem foldlM_ok_each {σ β ε : Type} (body : σ → β → Except ε σ) :
    ∀ (l : List β) (st st' : σ), l.foldlM body st = .ok st' →
      ∀ b ∈ l, ∃ s s' : σ, body s b = .ok s' := by
  intro l
  induction l with
  | nil => intro st st' h b hb; cases hb
  | cons x xs ih =>
    intro st st' h b hb
    rw [List.foldlM_cons] at h
    cases hx : body st x with
    | error e => rw [hx] at h; exact absurd h (by simp [Bind.bind, Except.bind])
    | ok st1 =>
      rw [hx] at h
      rcases List.mem_cons.mp hb with h1 | h2
      · subst h1
        exact ⟨st, st1, hx⟩
      · exact ih st1 st' h b h2

theorem foldlM_const {σ β ε : Type} (body : σ → β → Except ε σ) :
    ∀ (l : List β) (st : σ), (∀ b ∈ l, body st b = .ok st) →
      l.foldlM body st = .ok st := by
  intro l
  induction l with
  | nil => intro st h; rfl
  | cons x xs ih =>
    intro st h
    rw [List.foldlM_cons, h x (List.mem_cons_self x xs)]
    show xs.foldlM body st = .ok st
    exact ih st (fun b hb => h b (List.mem_cons_of_mem x hb))

theorem foldlMO_const {σ β : Type} (body : σ → β → Option σ) :
    ∀ (l : List β) (st : σ), (∀ b ∈ l, body st b = some st) →
      l.foldlM body st = some st := by
  intro l
  induction l with
  | nil => intro st h; rfl
  | cons x xs ih =>
    intro st h
    rw [List.foldlM_cons, h x (List.mem_cons_self x xs)]
    show xs.foldlM body st = some st
    exact ih st (fun b hb => h b (List.mem_cons_of_mem x hb))

theorem recordEnvironment_hit (db : DbState) (e : ApiEnvironment)
    (r : EnvironmentRow) (h : lookupA db.envCache e.hostName = some r) :
    recordEnvironment db e = (r, db) := by
  simp only [recordEnvironment, internRow_hit _ _ _ _ _ _ _ h]

theorem recordEnvironment_caches (db : DbState) (e : ApiEnvironment) :
    lookupA (recordEnvironment db e).2.envCache e.hostName
      = some (recordEnvironment db e).1 := by
  simp only [recordEnvironment]
  exact internRow_cachedKey _ _ _ _ _ _

theorem recordExperiment_hit (db : DbState) (data : BenchmarkData)
    (r : ExperimentRow)
    (h : lookupA db.expCache (expCacheKey data.projectName data.experimentName)
      = some r) :
    recordExperiment db data = (r, db) := by
  simp only [recordExperiment, h]

theorem recordExperiment_caches (db : DbState) (data : BenchmarkData) :
    lookupA (recordExperiment db data).2.expCache
        (expCacheKey data.projectName data.experimentName)
      = some (recordExperiment db data).1 := by
  simp only [recordExperiment]
  cases h0 : lookupA db.expCache (expCacheKey data.projectName data.experimentName) with
  | some r => exact h0
  | none => exact internRow_cachedKey _ _ _ _ _ _

theorem recordExperiment_frame (db : DbState) (data : BenchmarkData) :
    (recordExperiment db data).2.envCache = db.envCache := by
  simp only [recordExperiment]
  cases h0 : lookupA db.expCache (expCacheKey data.projectName data.experimentName) with
  | some r => rfl
  | none => rfl

theorem recordTrial_hit (db : DbState) (data : BenchmarkData)
    (env : EnvironmentRow) (exp : ExperimentRow) (r : TrialRow)
    (h : lookupA db.trialCache
        (trialCacheKey data.env.userName env.id data.startTime exp.id) = some r) :
    recordTrial db data env exp = (r, db) := by
  simp only [recordTrial, h]

theorem recordTrial_caches (db : DbState) (data : BenchmarkData)
    (env : EnvironmentRow) (exp : ExperimentRow) :
    lookupA (recordTrial db data env exp).2.trialCache
        (trialCacheKey data.env.userName env.id data.startTime exp.id)
      = some (recordTrial db data env exp).1 := by
  simp only [recordTrial]
  cases h0 : lookupA db.trialCache
      (trialCacheKey data.env.userName env.id data.startTime exp.id) with
  | some r => exact h0
  | none => exact internRow_cachedKey _ _ _ _ _ _

theorem recordTrial_frame (db : DbState) (data : BenchmarkData)
    (env : EnvironmentRow) (exp : ExperimentRow) :
    (recordTrial db data env exp).2.envCache = db.envCache
    ∧ (recordTrial db data env exp).2.expCache = db.expCache := by
  simp only [recordTrial]
  cases h0 : lookupA db.trialCache
      (trialCacheKey data.env.userName env.id data.startTime exp.id) with
  | some r => exact ⟨rfl, rfl⟩
  | none => exact ⟨rfl, rfl⟩

theorem recordUnit_frame (db : DbState) (u : String) :
    (recordUnit db u).criterionCache = db.criterionCache
    ∧ (recordUnit db u).envCache = db.envCache
    ∧ (recordUnit db u).expCache = db.expCache
    ∧ (recordUnit db u).trialCache = db.trialCache := by
  unfold recordUnit
  split
  · exact ⟨rfl, rfl, rfl, rfl⟩
  · exact ⟨rfl, rfl, rfl, rfl⟩

theorem recordCriterion_hit (db : DbState) (c : ApiCriterion) (r : CriterionRow)
    (h : lookupA db.criterionCache (criterionCacheKey c) = some r) :
    recordCriterion db c = (r, db) := by
  simp only [recordCriterion, h]

theorem recordCriterion_caches (db : DbState) (c : ApiCriterion) :
    lookupA (recordCriterion db c).2.criterionCache (criterionCacheKey c)
      = some (recordCriterion db c).1 := by
  simp only [recordCriterion]
  cases h0 : lookupA db.criterionCache (criterionCacheKey c) with
  | some r => exact h0
  | none =>
    have h1 := internRow_cachedKey (recordUnit db c.u).criterionCache
      (recordUnit db c.u).criteria (recordUnit db c.u).nextCriterionId
      (criterionCacheKey c) (fun row => row.name == c.c && row.unit == c.u)
      (fun id => ⟨id, c.c, c.u⟩)
    exact h1

theorem recordCriterion_mono (db : DbState) (c : ApiCriterion) (k : String)
    (r : CriterionRow) (h : lookupA db.criterionCache k = some r) :
    lookupA (recordCriterion db c).2.criterionCache k = some r := by
  simp only [recordCriterion]
  cases h0 : lookupA db.criterionCache (criterionCacheKey c) with
  | some r0 => exact h
  | none =>
    have hu : (recordUnit db c.u).criterionCache = db.criterionCache :=
      (recordUnit_frame db c.u).1
    exact internRow_preserves _ _ _ _ _ _ k r (by rw [hu]; exact h)

theorem recordCriterion_frame (db : DbState) (c : ApiCriterion) :
    (recordCriterion db c).2.envCache = db.envCache
    ∧ (recordCriterion db c).2.expCache = db.expCache
    ∧ (recordCriterion db c).2.trialCache = db.trialCache := by
  simp only [recordCriterion]
  cases h0 : lookupA db.criterionCache (criterionCacheKey c) with
  | some r => exact ⟨rfl, rfl, rfl⟩
  | none =>
    refine ⟨?_, ?_, ?_⟩
    · exact (recordUnit_frame db c.u).2.1
    · exact (recordUnit_frame db c.u).2.2.1
    · exact (recordUnit_frame db c.u).2.2.2

theorem recordRun_hit (db : DbState) (run : ApiRunId) (r : RunRow)
    (h : lookupA db.runCache run.cmdline = some r) :
    recordRun db run = (r, db) := by
  simp only [recordRun, h]

theorem recordRun_caches (db : DbState) (run : ApiRunId) :
    lookupA (recordRun db run).2.runCache run.cmdline
      = some (recordRun db run).1 := by
  simp only [recordRun]
  cases h0 : lookupA db.runCache run.cmdline with
  | some r => exact h0
  | none => exact internRow_cachedKey _ _ _ _ _ _

theorem recordRun_mono (db : DbState) (run : ApiRunId) (k : String) (r : RunRow)
    (h : lookupA db.runCache k = some r) :
    lookupA (recordRun db run).2.runCache k = some r := by
  simp only [recordRun]
  cases h0 : lookupA db.runCache run.cmdline with
  | some r0 => exact h
  | none => exact internRow_preserves _ _ _ _ _ _ k r h

theorem recordRun_frame (db : DbState) (run : ApiRunId) :
    (recordRun db run).2.envCache = db.envCache
    ∧ (recordRun db run).2.expCache = db.expCache
    ∧ (recordRun db run).2.trialCache = db.trialCache
    ∧ (recordRun db run).2.criterionCache = db.criterionCache
    ∧ (recordRun db run).2.timelineEnabled = db.timelineEnabled
    ∧ (recordRun db run).2.measurements = db.measurements
    ∧ (recordRun db run).2.profiles = db.profiles := by
  simp only [recordRun]
  cases h0 : lookupA db.runCache run.cmdline with
  | some r => exact ⟨rfl, rfl, rfl, rfl, rfl, rfl, rfl⟩
  | none => exact ⟨rfl, rfl, rfl, rfl, rfl, rfl, rfl⟩

theorem resolveCriteria_fold_facts :
    ∀ (cs : List ApiCriterion) (a m : List (Nat × CriterionRow)) (db db' : DbState),
      cs.foldl (fun acc c =>
          ((c.i, (recordCriterion acc.2 c).1) :: acc.1, (recordCriterion acc.2 c).2))
        (a, db) = (m, db') →
      (∀ k r, lookupA db.criterionCache k = some r →
          lookupA db'.criterionCache k = some r)
      ∧ db'.envCache = db.envCache ∧ db'.expCache = db.expCache
      ∧ db'.trialCache = db.trialCache
      ∧ ∀ ω : DbState, ω.criterionCache = db'.criterionCache →
          cs.foldl (fun acc c =>
              ((c.i, (recordCriterion acc.2 c).1) :: acc.1,
                (recordCriterion acc.2 c).2)) (a, ω) = (m, ω) := by
  intro cs
  induction cs with
  | nil =>
    intro a m db db' h
    rw [List.foldl_nil] at h
    rw [Prod.mk.injEq] at h
    obtain ⟨h1, h2⟩ := h
    subst h1
    subst h2
    exact ⟨fun k r hk => hk, rfl, rfl, rfl, fun ω hω => by rw [List.foldl_nil]⟩
  | cons c cs ih =>
    intro a m db db' h
    rw [List.foldl_cons] at h
    dsimp only at h
    obtain ⟨hmono, henv, hexp, htr, hreplay⟩ :=
      ih ((c.i, (recordCriterion db c).1) :: a) m (recordCriterion db c).2 db' h
    refine ⟨?_, ?_, ?_, ?_, ?_⟩
    · intro k r hk
      exact hmono k r (recordCriterion_mono db c k r hk)
    · exact henv.trans (recordCriterion_frame db c).1
    · exact hexp.trans (recordCriterion_frame db c).2.1
    · exact htr.trans (recordCriterion_frame db c).2.2
    · intro ω hω
      rw [List.foldl_cons]
      have hkey : lookupA db'.criterionCache (criterionCacheKey c)
          = some (recordCriterion db c).1 :=
        hmono _ _ (recordCriterion_caches db c)
      have hhit : recordCriterion ω c = ((recordCriterion db c).1, ω) :=
        recordCriterion_hit ω c _ (by rw [hω]; exact hkey)
      dsimp only
      rw [hhit]
      exact hreplay ω hω

theorem resolveCriteria_facts (db : DbState) (cs : List ApiCriterion)
    (m : List (Nat × CriterionRow)) (db' : DbState)
    (h : resolveCriteria db cs = (m, db')) :
    (∀ k r, lookupA db.criterionCache k = some r →
        lookupA db'.criterionCache k = some r)
    ∧ db'.envCache = db.envCache ∧ db'.expCache = db.expCache
    ∧ db'.trialCache = db.trialCache
    ∧ ∀ ω : DbState, ω.criterionCache = db'.criterionCache →
        resolveCriteria ω cs = (m, ω) := by
  unfold resolveCriteria at h ⊢
  exact resolveCriteria_fold_facts cs [] m db db' h

theorem recordMetaData_facts (db : DbState) (data : BenchmarkData)
    (env : EnvironmentRow) (exp : ExperimentRow) (trial : TrialRow)
    (crm : Option (List (Nat × CriterionRow))) (db' : DbState)
    (h : recordMetaData db data = ((env, exp, trial, crm), db')) :
    lookupA db'.envCache data.env.hostName = some env
    ∧ lookupA db'.expCache (expCacheKey data.projectName data.experimentName)
        = some exp
    ∧ lookupA db'.trialCache
        (trialCacheKey data.env.userName env.id data.startTime exp.id) = some trial
    ∧ (data.criteria = none → crm = none)
    ∧ (∀ cs, data.criteria = some cs → ∃ m, crm = some m
        ∧ ∀ ω : DbState, ω.criterionCache = db'.criterionCache →
            resolveCriteria ω cs = (m, ω)) := by
  simp only [recordMetaData] at h
  cases hc : data.criteria with
  | none =>
    rw [hc] at h
    rw [Prod.mk.injEq, Prod.mk.injEq, Prod.mk.injEq, Prod.mk.injEq] at h
    obtain ⟨⟨h1, h2, h3, h4⟩, h5⟩ := h
    subst h1
    subst h2
    subst h3
    subst h5
    refine ⟨?_, ?_, ?_, fun _ => h4.symm, fun cs hcs => Option.noConfusion hcs⟩
    · have e1 := recordEnvironment_caches db data.env
      have e2 := (recordExperiment_frame (recordEnvironment db data.env).2 data)
      have e3 := (recordTrial_frame (recordExperiment (recordEnvironment db data.env).2 data).2
        data (recordEnvironment db data.env).1
        (recordExperiment (recordEnvironment db data.env).2 data).1).1
      rw [e3, e2]
      exact e1
    · have e1 := recordExperiment_caches (recordEnvironment db data.env).2 data
      have e2 := (recordTrial_frame (recordExperiment (recordEnvironment db data.env).2 data).2
        data (recordEnvironment db data.env).1
        (recordExperiment (recordEnvironment db data.env).2 data).1).2
      rw [e2]
      exact e1
    · exact recordTrial_caches (recordExperiment (recordEnvironment db data.env).2 data).2
        data (recordEnvironment db data.env).1
        (recordExperiment (recordEnvironment db data.env).2 data).1
  | some cs =>
    rw [hc] at h
    rw [Prod.mk.injEq, Prod.mk.injEq, Prod.mk.injEq, Prod.mk.injEq] at h
    obtain ⟨⟨h1, h2, h3, h4⟩, h5⟩ := h
    subst h1
    subst h2
    subst h3
    have hrc : resolveCriteria
        (recordTrial (recordExperiment (recordEnvironment db data.env).2 data).2
          data (recordEnvironment db data.env).1
          (recordExperiment (recordEnvironment db data.env).2 data).1).2 cs
        = ((resolveCriteria
            (recordTrial (recordExperiment (recordEnvironment db data.env).2 data).2
              data (recordEnvironment db data.env).1
              (recordExperiment (recordEnvironment db data.env).2 data).1).2 cs).1,
           (resolveCriteria
            (recordTrial (recordExperiment (recordEnvironment db data.env).2 data).2
              data (recordEnvironment db data.env).1
              (recordExperiment (recordEnvironment db data.env).2 data).1).2 cs).2) := rfl
    obtain ⟨hcmono, hcenv, hcexp, hctr, hcreplay⟩ :=
      resolveCriteria_facts _ cs _ _ hrc
    subst h5
    refine ⟨?_, ?_, ?_, fun hn => Option.noConfusion hn, fun cs' hcs' => ?_⟩
    · rw [hcenv]
      have e2 := (recordExperiment_frame (recordEnvironment db data.env).2 data)
      have e3 := (recordTrial_frame (recordExperiment (recordEnvironment db data.env).2 data).2
        data (recordEnvironment db data.env).1
        (recordExperiment (recordEnvironment db data.env).2 data).1).1
      rw [e3, e2]
      exact recordEnvironment_caches db data.env
    · rw [hcexp]
      have e2 := (recordTrial_frame (recordExperiment (recordEnvironment db data.env).2 data).2
        data (recordEnvironment db data.env).1
        (recordExperiment (recordEnvironment db data.env).2 data).1).2
      rw [e2]
      exact recordExperiment_caches (recordEnvironment db data.env).2 data
    · rw [hctr]
      exact recordTrial_caches (recordExperiment (recordEnvironment db data.env).2 data).2
        data (recordEnvironment db data.env).1
        (recordExperiment (recordEnvironment db data.env).2 data).1
    · have hcs2 : cs = cs' := by
        injection hcs'
      subst hcs2
      exact ⟨_, h4.symm, hcreplay⟩

theorem recordMetaData_replay (db1 : DbState) (data : BenchmarkData)
    (env : EnvironmentRow) (exp : ExperimentRow) (trial : TrialRow)
    (crm : Option (List (Nat × CriterionRow)))
    (henv : lookupA db1.envCache data.env.hostName = some env)
    (hexp : lookupA db1.expCache (expCacheKey data.projectName data.experimentName)
        = some exp)
    (htrial : lookupA db1.trialCache
        (trialCacheKey data.env.userName env.id data.startTime exp.id) = some trial)
    (hcn : data.criteria = none → crm = none)
    (hcs : ∀ cs, data.criteria = some cs → ∃ m, crm = some m
        ∧ resolveCriteria db1 cs = (m, db1)) :
    recordMetaData db1 data = ((env, exp, trial, crm), db1) := by
  simp only [recordMetaData]
  rw [recordEnvironment_hit db1 data.env env henv]
  dsimp only
  rw [recordExperiment_hit db1 data exp hexp]
  dsimp only
  rw [recordTrial_hit db1 data env exp trial htrial]
  dsimp only
  cases hc : data.criteria with
  | none => rw [hcn hc]
  | some cs =>
    obtain ⟨m, hm, hres⟩ := hcs cs hc
    dsimp only
    rw [hres]
    dsimp only
    rw [hm]

theorem lookup3_availStep (m : AvailMap) (a b j w r c i : Nat) :
    lookup3 (availStep m (a, b, j, w)) r c i
      = if a = r ∧ b = c ∧ j = i then some w else lookup3 m r c i := by
  unfold availStep lookup3
  dsimp only
  by_cases h1 : a = r
  · subst h1
    rw [lookupN_setN_self]
    by_cases h2 : b = c
    · subst h2
      simp only [Option.some_bind, lookupN_setN_self]
      by_cases h3 : j = i
      · subst h3
        rw [lookupN_setN_self]
        simp
      · rw [lookupN_setN_ne _ _ _ _ h3, if_neg (by tauto)]
        cases hm : lookupN m a with
        | none => simp [hm, lookupN]
        | some run =>
          simp only [hm, Option.getD_some, Option.some_bind]
          cases hs : lookupN run b with
          | none => simp [hs, lookupN]
          | some crit => simp [hs]
    · simp only [Option.some_bind, lookupN_setN_ne _ _ _ _ h2]
      cases hm : lookupN m a with
      | none => simp [hm, lookupN, h2]
      | some run => simp [hm, h2]
  · rw [lookupN_setN_ne _ _ _ _ h1, if_neg (by tauto)]

theorem buildAvail_fold_nomatch (rows : List (Nat × Nat × Nat × Nat)) :
    ∀ (m : AvailMap) (r c i : Nat),
      (∀ k ∈ rows, ¬(k.1 = r ∧ k.2.1 = c ∧ k.2.2.1 = i)) →
      lookup3 (rows.foldl availStep m) r c i = lookup3 m r c i := by
  induction rows with
  | nil => intro m r c i h; rw [List.foldl_nil]
  | cons k rows ih =>
    intro m r c i h
    rw [List.foldl_cons]
    rw [ih _ r c i (fun k' hk' => h k' (List.mem_cons_of_mem k hk'))]
    rcases k with ⟨a, b, j, w⟩
    rw [lookup3_availStep]
    rw [if_neg (h _ (List.mem_cons_self _ _))]

theorem buildAvail_fold_mem (rows : List (Nat × Nat × Nat × Nat)) :
    ∀ (m : AvailMap) (r c i v : Nat),
      (r, c, i, v) ∈ rows →
      (∀ k ∈ rows, k.1 = r → k.2.1 = c → k.2.2.1 = i → k.2.2.2 = v) →
      lookup3 (rows.foldl availStep m) r c i = some v := by
  induction rows with
  | nil => intro m r c i v h _; cases h
  | cons k rows ih =>
    intro m r c i v hmem huniq
    rw [List.foldl_cons]
    by_cases hx : ∃ k' ∈ rows, k'.1 = r ∧ k'.2.1 = c ∧ k'.2.2.1 = i
    · obtain ⟨k', hk', h1, h2, h3⟩ := hx
      have hv : k'.2.2.2 = v := huniq k' (List.mem_cons_of_mem k hk') h1 h2 h3
      have hk'eq : k' = (r, c, i, v) := by
        rcases k' with ⟨a, b, j, w⟩
        dsimp only at h1 h2 h3 hv
        subst h1
        subst h2
        subst h3
        subst hv
        rfl
      rw [hk'eq] at hk'
      exact ih _ r c i v hk' (fun k2 hk2 => huniq k2 (List.mem_cons_of_mem k hk2))
    · rw [buildAvail_fold_nomatch rows _ r c i
        (fun k' hk' hcon => hx ⟨k', hk', hcon⟩)]
      rcases List.mem_cons.mp hmem with h0 | h0
      · rw [← h0]
        rw [lookup3_availStep]
        rw [if_pos ⟨rfl, rfl, rfl⟩]
      · exact absurd ⟨(r, c, i, v), h0, rfl, rfl, rfl⟩ hx

theorem buildAvail_fold_sound (rows : List (Nat × Nat × Nat × Nat)) :
    ∀ (m : AvailMap) (r c i v : Nat),
      lookup3 (rows.foldl availStep m) r c i = some v →
      (r, c, i, v) ∈ rows ∨ lookup3 m r c i = some v := by
  induction rows with
  | nil => intro m r c i v h; exact .inr h
  | cons k rows ih =>
    intro m r c i v h
    rw [List.foldl_cons] at h
    rcases ih _ r c i v h with h1 | h2
    · exact .inl (List.mem_cons_of_mem k h1)
    · rcases k with ⟨a, b, j, w⟩
      rw [lookup3_availStep] at h2
      split at h2
      · rename_i hcond
        obtain ⟨e1, e2, e3⟩ := hcond
        injection h2 with h2
        subst e1
        subst e2
        subst e3
        subst h2
        exact .inl (List.mem_cons_self _ _)
      · exact .inr h2

theorem groupedMeasurements_sound (tbl : List MeasurementRow) (T r c i v j : Nat)
    (h : (r, c, i, v) ∈ groupedMeasurements tbl T) (hj : j ≤ v) :
    ∃ row ∈ tbl, row.trialid = T ∧ row.runid = r ∧ row.criterion = c
      ∧ row.invocation = i ∧ j ≤ row.iteration := by
  simp only [groupedMeasurements] at h
  rw [List.mem_map] at h
  obtain ⟨k, hk, hkeq⟩ := h
  rw [Prod.mk.injEq, Prod.mk.injEq, Prod.mk.injEq] at hkeq
  obtain ⟨e1, e2, e3, e4⟩ := hkeq
  rw [List.mem_dedup, List.mem_map] at hk
  obtain ⟨row0, hrow0, hrow0k⟩ := hk
  rw [List.mem_filter] at hrow0
  obtain ⟨hrow0t, hrow0p⟩ := hrow0
  have hrow0T : row0.trialid = T := by
    have := of_decide_eq_true hrow0p
    exact beq_iff_eq.mp hrow0p
  rcases foldl_max_le_exists _ _ _ (e4 ▸ hj) with hz | ⟨a, ha, hja⟩
  · refine ⟨row0, hrow0t, hrow0T, ?_, ?_, ?_, le_trans hz (Nat.zero_le _)⟩
    · rw [← e1, ← hrow0k]
    · rw [← e2, ← hrow0k]
    · rw [← e3, ← hrow0k]
  · rw [List.mem_map] at ha
    obtain ⟨row1, hrow1, hrow1a⟩ := ha
    rw [List.mem_filter] at hrow1
    obtain ⟨hrow1m, hrow1p⟩ := hrow1
    rw [List.mem_filter] at hrow1m
    obtain ⟨hrow1t, hrow1tp⟩ := hrow1m
    have hrow1T : row1.trialid = T := beq_iff_eq.mp hrow1tp
    have hp := hrow1p
    rw [Bool.and_eq_true, Bool.and_eq_true] at hp
    obtain ⟨⟨hp1, hp2⟩, hp3⟩ := hp
    refine ⟨row1, hrow1t, hrow1T, ?_, ?_, ?_, hrow1a ▸ hja⟩
    · rw [beq_iff_eq.mp hp1, e1]
    · rw [beq_iff_eq.mp hp2, e2]
    · rw [beq_iff_eq.mp hp3, e3]

theorem groupedMeasurements_complete (tbl : List MeasurementRow) (T : Nat)
    (row : MeasurementRow) (hrow : row ∈ tbl) (hT : row.trialid = T) :
    ∃ v, (row.runid, row.criterion, row.invocation, v) ∈ groupedMeasurements tbl T
      ∧ row.iteration ≤ v := by
  simp only [groupedMeasurements]
  have hrowf : row ∈ tbl.filter (fun r => r.trialid == T) :=
    List.mem_filter.mpr ⟨hrow, beq_iff_eq.mpr hT⟩
  have hkmem : (row.runid, row.criterion, row.invocation)
      ∈ ((tbl.filter (fun r => r.trialid == T)).map
          (fun r => (r.runid, r.criterion, r.invocation))).dedup :=
    List.mem_dedup.mpr (List.mem_map_of_mem _ hrowf)
  refine ⟨_, List.mem_map_of_mem _ hkmem, ?_⟩
  apply le_foldl_max
  rw [List.mem_map]
  refine ⟨row, ?_, rfl⟩
  rw [List.mem_filter]
  refine ⟨hrowf, ?_⟩
  simp

theorem groupedMeasurements_uniq (tbl : List MeasurementRow) (T r c i v v' : Nat)
    (h : (r, c, i, v) ∈ groupedMeasurements tbl T)
    (h' : (r, c, i, v') ∈ groupedMeasurements tbl T) : v = v' := by
  simp only [groupedMeasurements] at h h'
  rw [List.mem_map] at h h'
  obtain ⟨k, hk, hkeq⟩ := h
  obtain ⟨k', hk', hkeq'⟩ := h'
  rw [Prod.mk.injEq, Prod.mk.injEq, Prod.mk.injEq] at hkeq hkeq'
  obtain ⟨e1, e2, e3, e4⟩ := hkeq
  obtain ⟨f1, f2, f3, f4⟩ := hkeq'
  have hkk : k = k' := by
    rcases k with ⟨a, b, j⟩
    rcases k' with ⟨a', b', j'⟩
    dsimp only at e1 e2 e3 f1 f2 f3
    rw [Prod.mk.injEq, Prod.mk.injEq]
    exact ⟨e1.trans f1.symm, e2.trans f2.symm, e3.trans f3.symm⟩
  rw [← e4, ← f4, hkk]

theorem avail_lookup_sound (tbl : List MeasurementRow) (T r c i v j : Nat)
    (h : lookup3 (retrieveAvailableMeasurements tbl T) r c i = some v)
    (hj : j ≤ v) :
    ∃ row ∈ tbl, row.trialid = T ∧ row.runid = r ∧ row.criterion = c
      ∧ row.invocation = i ∧ j ≤ row.iteration := by
  unfold retrieveAvailableMeasurements buildAvail at h
  rcases buildAvail_fold_sound _ _ _ _ _ _ h with h1 | h2
  · exact groupedMeasurements_sound tbl T r c i v j h1 hj
  · exact absurd h2 (by simp [lookup3, lookupN])

theorem avail_lookup_complete (tbl : List MeasurementRow) (T : Nat)
    (row : MeasurementRow) (hrow : row ∈ tbl) (hT : row.trialid = T) :
    ∃ v, lookup3 (retrieveAvailableMeasurements tbl T) row.runid row.criterion
        row.invocation = some v ∧ row.iteration ≤ v := by
  obtain ⟨v, hmem, hle⟩ := groupedMeasurements_complete tbl T row hrow hT
  refine ⟨v, ?_, hle⟩
  unfold retrieveAvailableMeasurements buildAvail
  refine buildAvail_fold_mem _ _ _ _ _ _ hmem (fun k hk h1 h2 h3 => ?_)
  have hkeq : k = (row.runid, row.criterion, row.invocation, k.2.2.2) := by
    rcases k with ⟨a, b, j, w⟩
    dsimp only at h1 h2 h3
    subst h1
    subst h2
    subst h3
    rfl
  rw [hkeq] at hk
  exact groupedMeasurements_uniq tbl T _ _ _ _ _ hk hmem

theorem insertMeasurement_covers (t : List MeasurementRow) (row : MeasurementRow) :
    ∃ r' ∈ (insertMeasurement t row).2, measKey r' = measKey row := by
  unfold insertMeasurement
  split
  · rename_i h
    rw [List.any_eq_true] at h
    obtain ⟨r', hr', hkey⟩ := h
    exact ⟨r', hr', of_decide_eq_true hkey⟩
  · exact ⟨row, List.mem_append_right _ (List.mem_singleton.mpr rfl), rfl⟩

theorem insertMeasurements_covers (rows : List MeasurementRow) :
    ∀ (t : List MeasurementRow) (row : MeasurementRow), row ∈ rows →
      ∃ r' ∈ (insertMeasurements t rows).2, measKey r' = measKey row := by
  induction rows with
  | nil => intro t row h; cases h
  | cons x xs ih =>
    intro t row h
    rw [insertMeasurements_cons]
    dsimp only
    rcases List.mem_cons.mp h with h1 | h2
    · subst h1
      obtain ⟨r', hr', hk⟩ := insertMeasurement_covers t row
      exact ⟨r', insertMeasurements_mono xs _ r' hr', hk⟩
    · exact ih _ row h2

theorem processMeasure_seq_keyinv (tE : Bool) (avail : AvailMap)
    (runId trialId : Nat) (criteria : List (Nat × CriterionRow)) (dinv dit : Nat)
    (m : ApiMeasure) (st st' : MeasLoopState (List MeasurementRow))
    (hP : ∀ row ∈ st.batchedLog,
        (∃ r' ∈ st.s, measKey r' = measKey row) ∨ row ∈ st.batch)
    (h : processMeasure seqIns tE avail runId trialId criteria dinv dit m st
        = .ok st') :
    ∀ row ∈ st'.batchedLog,
      (∃ r' ∈ st'.s, measKey r' = measKey row) ∨ row ∈ st'.batch := by
  unfold processMeasure at h
  cases hlk : lookupN criteria m.c with
  | none => rw [hlk] at h; exact absurd h (by simp)
  | some crit =>
    rw [hlk] at h
    dsimp only [] at h
    split at h
    · injection h with h
      subst h
      exact hP
    · rename_i hskip
      split at h
      · rename_i hfull
        split at h
        · rename_i n s2 h2
          rw [seqIns_batchedN] at h2
          rw [Prod.mk.injEq] at h2
          obtain ⟨h2a, h2b⟩ := h2
          injection h2a with h2a
          subst h2b
          subst h2a
          injection h with h
          subst h
          dsimp only
          intro row hrow
          rcases List.mem_append.mp hrow with h3 | h4
          · rcases hP row h3 with ⟨r', hr', hk⟩ | h5
            · exact .inl ⟨r', insertMeasurements_mono _ _ r' hr', hk⟩
            · exact .inl (insertMeasurements_covers _ _ row (List.mem_append_left _ h5))
          · exact .inl (insertMeasurements_covers _ _ row (List.mem_append_right _ h4))
        · rename_i e s2 h2
          rw [seqIns_batchedN] at h2
          rw [Prod.mk.injEq] at h2
          exact absurd h2.1 (by simp)
      · injection h with h
        subst h
        dsimp only
        intro row hrow
        rcases List.mem_append.mp hrow with h3 | h4
        · rcases hP row h3 with h5 | h6
          · exact .inl h5
          · exact .inr (List.mem_append_left _ h6)
        · exact .inr (List.mem_append_right _ h4)

theorem recordMeasurements_seq_keycov (tE : Bool) (dps : List ApiDataPoint)
    (runId trialId : Nat) (criteria : List (Nat × CriterionRow)) (avail : AvailMap)
    (tbl tblF : List MeasurementRow) (n : Nat)
    (calls : List (Nat × Nat × Nat × Int)) (log : List MeasurementRow)
    (h : recordMeasurements seqIns tE dps runId trialId criteria avail tbl
        = .ok (n, calls, log, tblF)) :
    ∀ row ∈ log, ∃ r' ∈ tblF, measKey r' = measKey row := by
  unfold recordMeasurements at h
  cases hfold : dps.foldlM
      (fun st d => d.m.foldlM
        (fun st m =>
          processMeasure seqIns tE avail runId trialId criteria d.inv d.it m st) st)
      (⟨0, [], [], [], tbl⟩ : MeasLoopState (List MeasurementRow)) with
  | error e =>
    rw [hfold] at h
    exact absurd h (by simp [Bind.bind, Except.bind])
  | ok st =>
    rw [hfold] at h
    have h' : (recordResidual seqIns st.batch st.s).bind
        (fun p => pure (st.recorded + p.1, st.addCalls, st.batchedLog, p.2))
          = Except.ok (n, calls, log, tblF) := h
    rw [recordResidual_seq] at h'
    have h'' : (Except.ok (st.recorded + (insertMeasurements st.s st.batch).1,
        st.addCalls, st.batchedLog, (insertMeasurements st.s st.batch).2)
          : Except RmError (Nat × List (Nat × Nat × Nat × Int)
              × List MeasurementRow × List MeasurementRow))
        = Except.ok (n, calls, log, tblF) := h'
    injection h'' with h''
    rw [Prod.mk.injEq, Prod.mk.injEq, Prod.mk.injEq] at h''
    obtain ⟨-, -, hl, hF⟩ := h''
    have hinv := foldlM_inv
      (fun st d => d.m.foldlM
        (fun st m =>
          processMeasure seqIns tE avail runId trialId criteria d.inv d.it m st) st)
      (fun st => ∀ row ∈ st.batchedLog,
        (∃ r' ∈ st.s, measKey r' = measKey row) ∨ row ∈ st.batch)
      (fun st d st' hP hd =>
        foldlM_inv
          (fun st m =>
            processMeasure seqIns tE avail runId trialId criteria d.inv d.it m st)
          (fun st => ∀ row ∈ st.batchedLog,
            (∃ r' ∈ st.s, measKey r' = measKey row) ∨ row ∈ st.batch)
          (fun st m st' hP hm =>
            processMeasure_seq_keyinv tE avail runId trialId criteria d.inv d.it m
              st st' hP hm)
          d.m st st' hP hd)
      dps ⟨0, [], [], [], tbl⟩ st (fun row hrow => absurd hrow (by simp)) hfold
    intro row hrow
    rw [← hl] at hrow
    rcases hinv row hrow with ⟨r', hr', hk⟩ | h6
    · exact ⟨r', hF ▸ insertMeasurements_mono st.batch st.s r' hr', hk⟩
    · obtain ⟨r', hr', hk⟩ := insertMeasurements_covers st.batch st.s row h6
      exact ⟨r', hF ▸ hr', hk⟩

theorem processMeasure_skip (tE : Bool) (avail : AvailMap) (runId trialId : Nat)
    (criteria : List (Nat × CriterionRow)) (dinv dit : Nat) (m : ApiMeasure)
    (st : MeasLoopState (List MeasurementRow)) (crit : CriterionRow)
    (hlk : lookupN criteria m.c = some crit)
    (hskip : alreadyRecorded avail runId trialId dinv dit crit.id m.v = true) :
    processMeasure seqIns tE avail runId trialId criteria dinv dit m st
      = .ok st := by
  unfold processMeasure
  rw [hlk]
  dsimp only
  simp [hskip]

theorem recordMeasurements_allskip (tE : Bool) (dps : List ApiDataPoint)
    (runId trialId : Nat) (criteria : List (Nat × CriterionRow)) (avail : AvailMap)
    (tbl : List MeasurementRow)
    (hall : ∀ dp ∈ dps, ∀ mm ∈ dp.m, ∃ crit, lookupN criteria mm.c = some crit
        ∧ alreadyRecorded avail runId trialId dp.inv dp.it crit.id mm.v = true) :
    recordMeasurements seqIns tE dps runId trialId criteria avail tbl
      = .ok (0, [], [], tbl) := by
  unfold recordMeasurements
  have hfold : dps.foldlM
      (fun st d => d.m.foldlM
        (fun st m =>
          processMeasure seqIns tE avail runId trialId criteria d.inv d.it m st) st)
      (⟨0, [], [], [], tbl⟩ : MeasLoopState (List MeasurementRow))
        = .ok ⟨0, [], [], [], tbl⟩ := by
    apply foldlM_const
    intro d hd
    apply foldlM_const
    intro mm hmm
    obtain ⟨crit, hlk, hskip⟩ := hall d hd mm hmm
    exact processMeasure_skip tE avail runId trialId criteria d.inv d.it mm _
      crit hlk hskip
  rw [hfold]
  simp only [Bind.bind, Except.bind]
  rw [recordResidual_seq]
  rfl

theorem recordMeasurements_seq_covers (tE : Bool) (dps : List ApiDataPoint)
    (runId T : Nat) (criteria : List (Nat × CriterionRow))
    (tbl tblF : List MeasurementRow) (n : Nat)
    (calls : List (Nat × Nat × Nat × Int)) (log : List MeasurementRow)
    (h : recordMeasurements seqIns tE dps runId T criteria
        (retrieveAvailableMeasurements tbl T) tbl = .ok (n, calls, log, tblF)) :
    ∀ dp ∈ dps, ∀ mm ∈ dp.m, ∃ crit, lookupN criteria mm.c = some crit
      ∧ ∃ row ∈ tblF, row.runid = runId ∧ row.trialid = T
          ∧ row.invocation = dp.inv ∧ row.criterion = crit.id
          ∧ dp.it ≤ row.iteration := by
  intro dp hdp mm hmm
  have hsome : ∃ crit, lookupN criteria mm.c = some crit := by
    unfold recordMeasurements at h
    cases hfold : dps.foldlM
        (fun st d => d.m.foldlM
          (fun st m =>
            processMeasure seqIns tE (retrieveAvailableMeasurements tbl T) runId T
              criteria d.inv d.it m st) st)
        (⟨0, [], [], [], tbl⟩ : MeasLoopState (List MeasurementRow)) with
    | error e =>
      rw [hfold] at h
      exact absurd h (by simp [Bind.bind, Except.bind])
    | ok st =>
      obtain ⟨s1, s2, hd⟩ := foldlM_ok_each _ dps _ st hfold dp hdp
      obtain ⟨t1, t2, hm2⟩ := foldlM_ok_each _ dp.m _ _ hd mm hmm
      cases hlk : lookupN criteria mm.c with
      | none =>
        unfold processMeasure at hm2
        rw [hlk] at hm2
        exact absurd hm2 (by simp)
      | some crit => exact ⟨crit, rfl⟩
  obtain ⟨crit, hlk⟩ := hsome
  refine ⟨crit, hlk, ?_⟩
  by_cases hskip : alreadyRecorded (retrieveAvailableMeasurements tbl T) runId T
      dp.inv dp.it crit.id mm.v = true
  · obtain ⟨v, hv, hle⟩ :=
      (alreadyRecorded_iff (retrieveAvailableMeasurements tbl T) runId T dp.inv
        dp.it crit.id mm.v).mp hskip
    obtain ⟨row, hrow, hT, hR, hC, hI, hIt⟩ :=
      avail_lookup_sound tbl T runId crit.id dp.inv v dp.it hv hle
    have hmono := (recordMeasurements_seq_table tE dps runId T criteria _ tbl tblF
      n calls log h).2.2
    exact ⟨row, hmono row hrow, hR, hT, hI, hC, hIt⟩
  · have hlog := (recordMeasurements_char seqIns tE dps runId T criteria _ tbl
      n calls log tblF h).1
    have hrowlog : (⟨runId, T, dp.inv, dp.it, crit.id, mm.v⟩ : MeasurementRow)
        ∈ log := by
      rw [hlog, List.mem_flatMap]
      refine ⟨dp, hdp, ?_⟩
      rw [List.mem_flatMap]
      refine ⟨mm, hmm, ?_⟩
      unfold tupleBatched
      rw [hlk]
      rw [Bool.not_eq_true] at hskip
      simp [hskip]
    obtain ⟨r', hr', hk⟩ := recordMeasurements_seq_keycov tE dps runId T criteria
      _ tbl tblF n calls log h _ hrowlog
    unfold measKey at hk
    rw [Prod.mk.injEq, Prod.mk.injEq, Prod.mk.injEq, Prod.mk.injEq] at hk
    obtain ⟨k1, k2, k3, k4, k5⟩ := hk
    exact ⟨r', hr', k1, k2, k3, k5, le_of_eq k4.symm⟩

theorem recordProfile_covers (tbl : List ProfileRow) (r t i nu : Nat) (v : String) :
    ∃ row ∈ (recordProfile tbl r t i nu v).2, profileKey row = (r, t, i, nu) := by
  unfold recordProfile
  split
  · rename_i h
    rw [List.any_eq_true] at h
    obtain ⟨row, hrow, hk⟩ := h
    exact ⟨row, hrow, of_decide_eq_true hk⟩
  · exact ⟨⟨r, t, i, nu, v⟩,
      List.mem_append_right _ (List.mem_singleton.mpr rfl), rfl⟩

theorem recordProfile_mono (tbl : List ProfileRow) (r t i nu : Nat) (v : String)
    (row : ProfileRow) (h : row ∈ tbl) : row ∈ (recordProfile tbl r t i nu v).2 := by
  unfold recordProfile
  split
  · exact h
  · exact List.mem_append_left _ h

theorem recordProfile_hit (tbl : List ProfileRow) (r t i nu : Nat) (v : String)
    (h : ∃ row ∈ tbl, profileKey row = (r, t, i, nu)) :
    recordProfile tbl r t i nu v = (0, tbl) := by
  unfold recordProfile
  rw [if_pos]
  rw [List.any_eq_true]
  obtain ⟨row, hrow, hk⟩ := h
  exact ⟨row, hrow, decide_eq_true hk⟩

theorem recordProfiles_fold_facts (ps : List ApiProfileData) :
    ∀ (a : Nat) (tbl : List ProfileRow) (r t : Nat),
      (∀ row ∈ tbl, row ∈ (ps.foldl (fun p pr =>
          ((p.1 + (recordProfile p.2 r t pr.inv pr.nit (serializeProfile pr.d)).1),
           (recordProfile p.2 r t pr.inv pr.nit (serializeProfile pr.d)).2))
          (a, tbl)).2)
      ∧ (∀ pr ∈ ps, ∃ row ∈ (ps.foldl (fun p pr =>
          ((p.1 + (recordProfile p.2 r t pr.inv pr.nit (serializeProfile pr.d)).1),
           (recordProfile p.2 r t pr.inv pr.nit (serializeProfile pr.d)).2))
          (a, tbl)).2, profileKey row = (r, t, pr.inv, pr.nit)) := by
  induction ps with
  | nil =>
    intro a tbl r t
    rw [List.foldl_nil]
    exact ⟨fun row hrow => hrow, fun pr hpr => absurd hpr (List.not_mem_nil pr)⟩
  | cons pr ps ih =>
    intro a tbl r t
    rw [List.foldl_cons]
    dsimp only
    obtain ⟨ihmono, ihcov⟩ := ih
      (a + (recordProfile tbl r t pr.inv pr.nit (serializeProfile pr.d)).1)
      (recordProfile tbl r t pr.inv pr.nit (serializeProfile pr.d)).2 r t
    refine ⟨?_, ?_⟩
    · intro row hrow
      exact ihmono row (recordProfile_mono tbl r t pr.inv pr.nit _ row hrow)
    · intro pr' hpr'
      rcases List.mem_cons.mp hpr' with h1 | h2
      · subst h1
        obtain ⟨row, hrow, hk⟩ := recordProfile_covers tbl r t pr'.inv pr'.nit
          (serializeProfile pr'.d)
        exact ⟨row, ihmono row hrow, hk⟩
      · exact ihcov pr' h2

theorem recordProfiles_mono (ps : List ApiProfileData) (r t : Nat)
    (tbl : List ProfileRow) (row : ProfileRow) (h : row ∈ tbl) :
    row ∈ (recordProfiles ps r t tbl).2 := by
  unfold recordProfiles
  exact (recordProfiles_fold_facts ps 0 tbl r t).1 row h

theorem recordProfiles_covers (ps : List ApiProfileData) (r t : Nat)
    (tbl : List ProfileRow) (pr : ApiProfileData) (h : pr ∈ ps) :
    ∃ row ∈ (recordProfiles ps r t tbl).2,
      profileKey row = (r, t, pr.inv, pr.nit) := by
  unfold recordProfiles
  exact (recordProfiles_fold_facts ps 0 tbl r t).2 pr h

theorem recordProfiles_allhit (ps : List ApiProfileData) :
    ∀ (tbl : List ProfileRow) (r t : Nat),
      (∀ pr ∈ ps, ∃ row ∈ tbl, profileKey row = (r, t, pr.inv, pr.nit)) →
      recordProfiles ps r t tbl = (0, tbl) := by
  induction ps with
  | nil => intro tbl r t h; rfl
  | cons pr ps ih =>
    intro tbl r t h
    unfold recordProfiles
    rw [List.foldl_cons]
    dsimp only
    rw [recordProfile_hit tbl r t pr.inv pr.nit _ (h pr (List.mem_cons_self _ _))]
    dsimp only
    have h0 : (0 : Nat) + 0 = 0 := rfl
    rw [h0]
    have hrest := ih tbl r t (fun pr' hpr' => h pr' (List.mem_cons_of_mem _ hpr'))
    unfold recordProfiles at hrest
    exact hrest

theorem groupCov_mono (T : Nat) (cm : List (Nat × CriterionRow)) (db db' : DbState)
    (g : RunGroup) (h : GroupCov T cm db g)
    (hrun : ∀ k r, lookupA db.runCache k = some r → lookupA db'.runCache k = some r)
    (hmeas : ∀ r ∈ db.measurements, r ∈ db'.measurements)
    (hprof : ∀ r ∈ db.profiles, r ∈ db'.profiles) : GroupCov T cm db' g := by
  obtain ⟨rrow, h1, h2, h3⟩ := h
  refine ⟨rrow, hrun _ _ h1, ?_, ?_⟩
  · intro dps hdps dp hdp mm hmm
    obtain ⟨crit, hc, row, hrow, hprops⟩ := h2 dps hdps dp hdp mm hmm
    exact ⟨crit, hc, row, hmeas row hrow, hprops⟩
  · intro ps hps pr hpr
    obtain ⟨row, hrow, hk⟩ := h3 ps hps pr hpr
    exact ⟨row, hprof row hrow, hk⟩

theorem recordRunGroup_facts (T : Nat) (cm : List (Nat × CriterionRow))
    (acc acc' : DbState × Nat × Nat) (g : RunGroup)
    (h : recordRunGroup T cm acc g = some acc') :
    acc'.1.envCache = acc.1.envCache
    ∧ acc'.1.expCache = acc.1.expCache
    ∧ acc'.1.trialCache = acc.1.trialCache
    ∧ acc'.1.criterionCache = acc.1.criterionCache
    ∧ acc'.1.timelineEnabled = acc.1.timelineEnabled
    ∧ (∀ k r, lookupA acc.1.runCache k = some r →
        lookupA acc'.1.runCache k = some r)
    ∧ (∀ r ∈ acc.1.measurements, r ∈ acc'.1.measurements)
    ∧ (∀ r ∈ acc.1.profiles, r ∈ acc'.1.profiles)
    ∧ GroupCov T cm acc'.1 g := by
  simp only [recordRunGroup] at h
  obtain ⟨hf1, hf2, hf3, hf4, hf5, hf6, hf7⟩ := recordRun_frame acc.1 g.runId
  cases hd : g.d with
  | some dps =>
    rw [hd] at h
    dsimp only [] at h
    cases hrm : recordMeasurements seqIns (recordRun acc.1 g.runId).2.timelineEnabled
        dps (recordRun acc.1 g.runId).1.id T cm
        (retrieveAvailableMeasurements (recordRun acc.1 g.runId).2.measurements T)
        (recordRun acc.1 g.runId).2.measurements with
    | error e =>
      rw [hrm] at h
      simp only [Bind.bind, Option.bind] at h
      exact Option.noConfusion h
    | ok q =>
      rcases q with ⟨n, calls, log, tbl'⟩
      rw [hrm] at h
      simp only [Bind.bind, Option.bind] at h
      injection h with h
      subst h
      have hseq := recordMeasurements_seq_table
        (recordRun acc.1 g.runId).2.timelineEnabled dps
        (recordRun acc.1 g.runId).1.id T cm
        (retrieveAvailableMeasurements (recordRun acc.1 g.runId).2.measurements T)
        (recordRun acc.1 g.runId).2.measurements tbl' n calls log hrm
      have hcov := recordMeasurements_seq_covers
        (recordRun acc.1 g.runId).2.timelineEnabled dps
        (recordRun acc.1 g.runId).1.id T cm
        (recordRun acc.1 g.runId).2.measurements tbl' n calls log hrm
      cases hp : g.p with
      | some ps =>
        dsimp only
        refine ⟨hf1, hf2, hf3, hf4, hf5,
          fun k r hk => recordRun_mono acc.1 g.runId k r hk,
          fun r hr => hseq.2.2 r (hf6.symm ▸ hr),
          fun r hr => recordProfiles_mono ps _ T _ r (hf7.symm ▸ hr),
          ?_⟩
        unfold GroupCov
        refine ⟨(recordRun acc.1 g.runId).1, recordRun_caches acc.1 g.runId, ?_, ?_⟩
        · intro dps' hdps' dp hdp mm hmm
          have hde : dps' = dps := by
            rw [hd] at hdps'
            injection hdps' with hh
            exact hh.symm
          subst hde
          exact hcov dp hdp mm hmm
        · intro ps' hps' pr hpr
          have hpe : ps' = ps := by
            rw [hp] at hps'
            injection hps' with hh
            exact hh.symm
          subst hpe
          exact recordProfiles_covers ps' _ T _ pr hpr
      | none =>
        dsimp only
        refine ⟨hf1, hf2, hf3, hf4, hf5,
          fun k r hk => recordRun_mono acc.1 g.runId k r hk,
          fun r hr => hseq.2.2 r (hf6.symm ▸ hr),
          fun r hr => hf7.symm ▸ hr,
          ?_⟩
        unfold GroupCov
        refine ⟨(recordRun acc.1 g.runId).1, recordRun_caches acc.1 g.runId, ?_, ?_⟩
        · intro dps' hdps' dp hdp mm hmm
          have hde : dps' = dps := by
            rw [hd] at hdps'
            injection hdps' with hh
            exact hh.symm
          subst hde
          exact hcov dp hdp mm hmm
        · intro ps' hps' pr hpr
          rw [hp] at hps'
          exact Option.noConfusion hps'
  | none =>
    rw [hd] at h
    dsimp only [] at h
    simp only [Bind.bind, Option.bind] at h
    injection h with h
    subst h
    cases hp : g.p with
    | some ps =>
      dsimp only
      refine ⟨hf1, hf2, hf3, hf4, hf5,
        fun k r hk => recordRun_mono acc.1 g.runId k r hk,
        fun r hr => hf6.symm ▸ hr,
        fun r hr => recordProfiles_mono ps _ T _ r (hf7.symm ▸ hr),
        ?_⟩
      unfold GroupCov
      refine ⟨(recordRun acc.1 g.runId).1, recordRun_caches acc.1 g.runId, ?_, ?_⟩
      · intro dps' hdps' dp hdp mm hmm
        rw [hd] at hdps'
        exact Option.noConfusion hdps'
      · intro ps' hps' pr hpr
        have hpe : ps' = ps := by
          rw [hp] at hps'
          injection hps' with hh
          exact hh.symm
        subst hpe
        exact recordProfiles_covers ps' _ T _ pr hpr
    | none =>
      dsimp only
      refine ⟨hf1, hf2, hf3, hf4, hf5,
        fun k r hk => recordRun_mono acc.1 g.runId k r hk,
        fun r hr => hf6.symm ▸ hr,
        fun r hr => hf7.symm ▸ hr,
        ?_⟩
      unfold GroupCov
      refine ⟨(recordRun acc.1 g.runId).1, recordRun_caches acc.1 g.runId, ?_, ?_⟩
      · intro dps' hdps' dp hdp mm hmm
        rw [hd] at hdps'
        exact Option.noConfusion hdps'
      · intro ps' hps' pr hpr
        rw [hp] at hps'
        exact Option.noConfusion hps'

theorem firstFold_facts (T : Nat) (cm : List (Nat × CriterionRow)) :
    ∀ (groups : List RunGroup) (acc st : DbState × Nat × Nat),
      groups.foldlM (recordRunGroup T cm) acc = some st →
      st.1.envCache = acc.1.envCache
      ∧ st.1.expCache = acc.1.expCache
      ∧ st.1.trialCache = acc.1.trialCache
      ∧ st.1.criterionCache = acc.1.criterionCache
      ∧ st.1.timelineEnabled = acc.1.timelineEnabled
      ∧ (∀ k r, lookupA acc.1.runCache k = some r →
          lookupA st.1.runCache k = some r)
      ∧ (∀ r ∈ acc.1.measurements, r ∈ st.1.measurements)
      ∧ (∀ r ∈ acc.1.profiles, r ∈ st.1.profiles)
      ∧ (∀ g ∈ groups, GroupCov T cm st.1 g) := by
  intro groups
  induction groups with
  | nil =>
    intro acc st h
    rw [List.foldlM_nil] at h
    injection h with h
    subst h
    exact ⟨rfl, rfl, rfl, rfl, rfl, fun k r hk => hk, fun r hr => hr,
      fun r hr => hr, fun g hg => absurd hg (List.not_mem_nil g)⟩
  | cons g gs ih =>
    intro acc st h
    rw [List.foldlM_cons] at h
    cases hb : recordRunGroup T cm acc g with
    | none =>
      rw [hb] at h
      simp only [Bind.bind, Option.bind] at h
      exact Option.noConfusion h
    | some acc1 =>
      rw [hb] at h
      have h' : gs.foldlM (recordRunGroup T cm) acc1 = some st := h
      obtain ⟨e1, e2, e3, e4, e5, m6, m7, m8, c9⟩ :=
        recordRunGroup_facts T cm acc acc1 g hb
      obtain ⟨f1, f2, f3, f4, f5, n6, n7, n8, d9⟩ := ih acc1 st h'
      refine ⟨f1.trans e1, f2.trans e2, f3.trans e3, f4.trans e4, f5.trans e5,
        fun k r hk => n6 k r (m6 k r hk),
        fun r hr => n7 r (m7 r hr), fun r hr => n8 r (m8 r hr), ?_⟩
      intro g' hg'
      rcases List.mem_cons.mp hg' with h1 | h2
      · subst h1
        exact groupCov_mono T cm acc1.1 st.1 g' c9 n6 n7 n8
      · exact d9 g' h2

theorem secondFold (T : Nat) (cm : List (Nat × CriterionRow)) (db : DbState)
    (groups : List RunGroup) (hrep : ∀ g ∈ groups, GroupReplay T cm db g)
    (a b : Nat) :
    groups.foldlM (recordRunGroup T cm) (db, a, b) = some (db, a, b) := by
  apply foldlMO_const
  intro g hg
  obtain ⟨rrow, hrun, hm, hp⟩ := hrep g hg
  simp only [recordRunGroup]
  rw [hrun]
  dsimp only
  cases hd : g.d with
  | some dps =>
    dsimp only []
    rw [hm dps hd]
    dsimp only
    cases hp' : g.p with
    | some ps =>
      simp only [Bind.bind, Option.bind]
      rw [hp ps hp']
      simp [List.append_nil]
    | none =>
      simp [List.append_nil]
  | none =>
    dsimp only
    cases hp' : g.p with
    | some ps =>
      simp only [Bind.bind, Option.bind]
      rw [hp ps hp']
      simp
    | none =>
      simp

/-- C1: ingestion is idempotent.  If `recordAllData` succeeds on a payload,
running it again on the resulting store returns 0 recorded measurements and
0 profile rows and leaves every table, cache and counter unchanged — the
second call differs from its input store only in the unconditionally
refreshed stats-validity token.  Every metadata lookup of the second call
is a cache hit, every measurement tuple is skipped through the
available-measurements map, and every profile insert conflicts. -/
theorem recordAllData_idempotent (db : DbState) (data : BenchmarkData) (s : Bool)
    (db1 : DbState) (m1 p1 : Nat)
    (h : recordAllData db data s = some (db1, m1, p1)) :
    recordAllData db1 data s
      = some ({ db1 with statsValid := invalidatedToken db1.statsValid }, 0, 0) := by
  simp only [recordAllData] at h ⊢
  rcases hmd : recordMetaData { db with statsValid := invalidatedToken db.statsValid }
      data with ⟨⟨env, exp, trial, crm⟩, dbM⟩
  rw [hmd] at h
  dsimp only [] at h
  cases hfold : data.data.foldlM (recordRunGroup trial.id (crm.getD [])) (dbM, 0, 0) with
  | none =>
    rw [hfold] at h
    simp only [Bind.bind, Option.bind] at h
    exact Option.noConfusion h
  | some st1 =>
    rw [hfold] at h
    simp only [Bind.bind, Option.bind] at h
    injection h with h
    rw [Prod.mk.injEq, Prod.mk.injEq] at h
    obtain ⟨hdbF, hm1, hp1⟩ := h
    obtain ⟨henv, hexp, htrial, hcn, hcsome⟩ :=
      recordMetaData_facts _ data env exp trial crm dbM hmd
    obtain ⟨e1, e2, e3, e4, e5, m6, m7, m8, c9⟩ :=
      firstFold_facts trial.id (crm.getD []) data.data (dbM, 0, 0) st1 hfold
    have hbump : db1.envCache = st1.1.envCache ∧ db1.expCache = st1.1.expCache
        ∧ db1.trialCache = st1.1.trialCache
        ∧ db1.criterionCache = st1.1.criterionCache
        ∧ db1.timelineEnabled = st1.1.timelineEnabled
        ∧ db1.runCache = st1.1.runCache
        ∧ db1.measurements = st1.1.measurements
        ∧ db1.profiles = st1.1.profiles := by
      rw [← hdbF]
      split
      · exact ⟨rfl, rfl, rfl, rfl, rfl, rfl, rfl, rfl⟩
      · exact ⟨rfl, rfl, rfl, rfl, rfl, rfl, rfl, rfl⟩
    obtain ⟨b1, b2, b3, b4, b5, b6, b7, b8⟩ := hbump
    have hmd2 : recordMetaData
        { db1 with statsValid := invalidatedToken db1.statsValid } data
          = ((env, exp, trial, crm),
             { db1 with statsValid := invalidatedToken db1.statsValid }) := by
      apply recordMetaData_replay
      · show lookupA db1.envCache data.env.hostName = some env
        rw [b1, e1]
        exact henv
      · show lookupA db1.expCache
            (expCacheKey data.projectName data.experimentName) = some exp
        rw [b2, e2]
        exact hexp
      · show lookupA db1.trialCache
            (trialCacheKey data.env.userName env.id data.startTime exp.id)
              = some trial
        rw [b3, e3]
        exact htrial
      · exact hcn
      · intro cs hcs
        obtain ⟨m, hmm, hreplay⟩ := hcsome cs hcs
        refine ⟨m, hmm, hreplay _ ?_⟩
        show db1.criterionCache = dbM.criterionCache
        rw [b4, e4]
    have hrepl : ∀ g ∈ data.data, GroupReplay trial.id (crm.getD [])
        { db1 with statsValid := invalidatedToken db1.statsValid } g := by
      intro g hg
      obtain ⟨rrow, hrun, hmcov, hpcov⟩ := c9 g hg
      unfold GroupReplay
      refine ⟨rrow, ?_, ?_, ?_⟩
      · apply recordRun_hit
        show lookupA db1.runCache g.runId.cmdline = some rrow
        rw [b6]
        exact hrun
      · intro dps hd
        apply recordMeasurements_allskip
        intro dp hdp mm hmm
        obtain ⟨crit, hlk, row, hrow, hR, hT, hI, hC, hIt⟩ :=
          hmcov dps hd dp hdp mm hmm
        refine ⟨crit, hlk, ?_⟩
        rw [alreadyRecorded_iff]
        obtain ⟨v, hv, hvle⟩ :=
          avail_lookup_complete st1.1.measurements trial.id row hrow hT
        refine ⟨v, ?_, le_trans hIt hvle⟩
        show lookup3 (retrieveAvailableMeasurements db1.measurements trial.id)
            rrow.id crit.id dp.inv = some v
        rw [b7, ← hR, ← hC, ← hI]
        exact hv
      · intro ps hps
        apply recordProfiles_allhit
        intro pr hpr
        obtain ⟨row, hrow, hk⟩ := hpcov ps hps pr hpr
        refine ⟨row, ?_, hk⟩
        show row ∈ db1.profiles
        rw [b8]
        exact hrow
    rw [hmd2]
    dsimp only
    rw [secondFold trial.id (crm.getD [])
      { db1 with statsValid := invalidatedToken db1.statsValid } data.data hrepl 0 0]
    simp only [Bind.bind, Option.bind]
    simp

/-- Witness for C1: ingesting the one-group payload into the empty store
succeeds with one profile row, and re-ingesting it returns 0 measurements
and 0 profiles and only refreshes the stats-validity token. -/
theorem recordAllData_idempotent_witness :
    recordAllData emptyDb c1Data false = some (c1Res.1, 0, 1)
    ∧ recordAllData c1Res.1 c1Data false
        = some ({ c1Res.1 with statsValid := invalidatedToken c1Res.1.statsValid },
                0, 0) := by
  have h : recordAllData emptyDb c1Data false = some (c1Res.1, 0, 1) := by decide
  exact ⟨h, recordAllData_idempotent emptyDb c1Data false c1Res.1 0 1 h⟩

end ReBench
